import Mathlib

/-!
Shallow embedding of the hybrid MLFQ + Stride scheduler of `proc.c`
(xv6 variant).  The intrusive circular doubly-linked lists with sentinel
headers are modelled as Lean lists of process-slot indices; the per-level
round-robin `pin` cursor (a pointer either to the sentinel or to a list
node) is modelled as `Option Nat` (`none` = sentinel).  The 1-indexed
binary min-heap `stride.minheap[1..size]` is modelled as a Lean list
(`minheap[i]` = list entry `i-1`, `size` = list length).  Machine `int`s
are modelled as `Int` (`ticks`, `privlevel`, tick counters are
non-negative and modelled as `Nat`); every C division and modulus in the
code runs on non-negative operands, where Lean's `/` and `%` on `Nat`
agree with C semantics.  Compile-time tunables (from `param.h` /
`scheduler.h`, not part of the sources) are collected in a `Params`
record and kept abstract.
-/

namespace XvSched

/-- Process states, as in `proc.h`. -/
inductive PState where
  | UNUSED | EMBRYO | SLEEPING | RUNNABLE | RUNNING | ZOMBIE
deriving DecidableEq, Repr

/-- Scheduler type of a process: default MLFQ, or STRIDE after
`set_cpu_share`. -/
inductive PType where
  | MLFQ | STRIDE
deriving DecidableEq, Repr

/-- The scheduling-relevant fields of `struct proc`. -/
structure Proc where
  pid : Nat
  state : PState
  type : PType
  privlevel : Nat
  ticks : Nat
  tickets : Int
  pass : Int
  chan : Nat
  killed : Bool
deriving DecidableEq, Repr

/-- The all-zero process slot (C static initialisation; `UNUSED`,
enum value 0 for both state and type). -/
def initProc : Proc :=
  { pid := 0, state := .UNUSED, type := .MLFQ, privlevel := 0, ticks := 0,
    tickets := 0, pass := 0, chan := 0, killed := false }

instance : Inhabited Proc := ⟨initProc⟩

/-- `struct mlfq`: per-level queues and pins, global tick counter, the
MLFQ side's pass and its ticket pool.  Queues hold process-slot
indices; `pin[l] = none` means the pin rests on the sentinel header of
`queue[l]`. -/
structure MlfqState where
  queue : List (List Nat)
  pin : List (Option Nat)
  ticks : Nat
  pass : Int
  tickets : Int
deriving DecidableEq, Repr

/-- `struct stride`: the 1-indexed min-heap (as a list, entry `i-1` is
`minheap[i]`, `size` is the length) and the run list. -/
structure StrideState where
  minheap : List Nat
  run : List Nat
deriving DecidableEq, Repr

/-- The global `ptable`: process slots, both sub-schedulers, the sleep
list and the free list. -/
structure PTable where
  proc : List Proc
  mlfq : MlfqState
  stride : StrideState
  sleep : List Nat
  free : List Nat
deriving DecidableEq, Repr

/-- Compile-time tunables from `param.h`/`scheduler.h` (not among the
sources); kept abstract.  `STRD(t) = LARGE/t`. -/
structure Params where
  NPROC : Nat
  QSIZE : Nat
  BOOSTINTERVAL : Nat
  RESERVE : Int
  LARGE : Int
  BARRIER : Int
  MAXINT : Int
  TQ : Nat → Nat
  TA : Nat → Nat

/-- `STRD(t) = LARGE / t`; all uses have positive operands, where
Lean's integer division agrees with C's. -/
def STRD (pr : Params) (t : Int) : Int := pr.LARGE / t

/-! ### State accessors and single-point updates -/

/-- Read process slot `i` (out-of-range reads give the all-zero slot;
never exercised by the theorems' hypotheses). -/
def getProc (s : PTable) (i : Nat) : Proc := s.proc.getD i initProc

/-- Write process slot `i`. -/
def setProc (s : PTable) (i : Nat) (p : Proc) : PTable :=
  { s with proc := s.proc.set i p }

/-- Mutate process slot `i` in place. -/
def updProc (s : PTable) (i : Nat) (g : Proc → Proc) : PTable :=
  setProc s i (g (getProc s i))

/-- The level-`l` MLFQ queue. -/
def queueAt (s : PTable) (l : Nat) : List Nat := s.mlfq.queue.getD l []

/-- The level-`l` pin. -/
def pinAt (s : PTable) (l : Nat) : Option Nat := s.mlfq.pin.getD l none

/-- Replace the level-`l` queue. -/
def setQueueAt (s : PTable) (l : Nat) (q : List Nat) : PTable :=
  { s with mlfq := { s.mlfq with queue := s.mlfq.queue.set l q } }

/-- Replace the level-`l` pin. -/
def setPinAt (s : PTable) (l : Nat) (p : Option Nat) : PTable :=
  { s with mlfq := { s.mlfq with pin := s.mlfq.pin.set l p } }

/-- The successor of node `i` in the circular list `q`: the next list
entry, or the sentinel (`none`) when `i` is the last entry.  This is
`node->next` for a node of an intrusive cyclic list. -/
def nextOf (q : List Nat) (i : Nat) : Option Nat :=
  let k := q.findIdx (fun j => j == i)
  if k + 1 < q.length then some (q.getD (k + 1) 0) else none

/-! ### Heap primitives (`pushheap` / `popheap`), 1-indexed -/

/-- `minheap[i]` (1-indexed read). -/
def hget (hp : List Nat) (i : Nat) : Nat := hp.getD (i - 1) 0

/-- `minheap[i] = v` (1-indexed write). -/
def hset (hp : List Nat) (i : Nat) (v : Nat) : List Nat := hp.set (i - 1) v

/-- The sift-up loop of `pushheap`: while `i != 1` and `p->pass <
minheap[i/2]->pass`, move the parent down and halve `i`; finally store
`p` at `i`.  (`i` is always at least 1, so the C `i != 1` test is
rendered `1 < i`.)  `f` gives each slot's `pass`. -/
def siftup (f : Nat → Int) (p : Nat) (hp : List Nat) (i : Nat) : List Nat :=
  if h : 1 < i ∧ f p < f (hget hp (i / 2)) then
    siftup f p (hset hp i (hget hp (i / 2))) (i / 2)
  else hset hp i p
termination_by i
decreasing_by exact Nat.div_lt_self (by omega) (by omega)

/-- `pushheap(p)`: grow the heap by one slot and sift `p` up from the
new last position. -/
def pushheapL (f : Nat → Int) (hp : List Nat) (p : Nat) : List Nat :=
  siftup f p (hp ++ [p]) (hp.length + 1)

/-- The sift-down loop of `popheap`: starting at `parent` (always at
least 1), pick the child with the smaller pass, stop when `last` fits,
else move the child up and descend; finally store `last` at `parent`. -/
def siftdown (f : Nat → Int) (last : Nat) (hp : List Nat) (parent : Nat) : List Nat :=
  if h : 1 ≤ parent ∧ 2 * parent ≤ hp.length then
    let child := if 2 * parent < hp.length ∧
        f (hget hp (2 * parent + 1)) < f (hget hp (2 * parent)) then
      2 * parent + 1 else 2 * parent
    if f last ≤ f (hget hp child) then hset hp parent last
    else siftdown f last (hset hp parent (hget hp child)) child
  else hset hp parent last
termination_by hp.length + 1 - parent
decreasing_by
  simp only [hset, List.length_set]
  split <;> omega

/-- `popheap()`: return `minheap[1]`, drop the last slot, and sift the
old last element down from the root.  (Only called on a non-empty
heap.) -/
def popheapL (f : Nat → Int) (hp : List Nat) : Nat × List Nat :=
  (hget hp 1, siftdown f (hget hp hp.length) hp.dropLast 1)

/-- A slot's pass value, the heap key. -/
def passKey (s : PTable) (j : Nat) : Int := (getProc s j).pass

/-- `pushheap` on the global state. -/
def pushheap (s : PTable) (i : Nat) : PTable :=
  { s with stride := { s.stride with minheap := pushheapL (passKey s) s.stride.minheap i } }

/-- `popheap` on the global state. -/
def popheap (s : PTable) : Nat × PTable :=
  let r := popheapL (passKey s) s.stride.minheap
  (r.1, { s with stride := { s.stride with minheap := r.2 } })

/-- `getminpass()`: the root's pass, or `MAXINT` for an empty heap. -/
def getminpass (pr : Params) (s : PTable) : Int :=
  if 0 < s.stride.minheap.length then passKey s (hget s.stride.minheap 1) else pr.MAXINT

/-! ### MLFQ queue primitives -/

/-- `enqueue(level, p)`: append to the tail of `queue[level]`. -/
def enqueue (s : PTable) (level : Nat) (i : Nat) : PTable :=
  setQueueAt s level (queueAt s level ++ [i])

/-- `dequeue(p)`: if the pin of `p`'s level rests on `p`'s node,
advance it to the node's successor; then unlink the node. -/
def dequeue (s : PTable) (i : Nat) : PTable :=
  let l := (getProc s i).privlevel
  let q := queueAt s l
  let p := pinAt s l
  let p1 := if p = some i then nextOf q i else p
  setQueueAt (setPinAt s l p1) l (q.erase i)

/-- `concatqueue(src, dst)`: if `dst` is empty and `src`'s pin is not
its own sentinel, the `dst` pin inherits the `src` pin; the `src` pin
is reset to its sentinel; then the whole `src` queue is spliced onto
`dst`'s tail. -/
def concatqueue (s : PTable) (src dst : Nat) : PTable :=
  let srcq := queueAt s src
  let dstq := queueAt s dst
  let spin := pinAt s src
  let dpin := pinAt s dst
  let dpin1 := if dstq = [] ∧ spin ≠ none then spin else dpin
  setQueueAt (setQueueAt (setPinAt (setPinAt s src none) dst dpin1) dst (dstq ++ srcq)) src []

/-! ### `pinit` -/

/-- `pinit()`: empty queues with sentinel pins, empty stride state,
empty sleep list, all `NPROC` slots on the free list, 100 tickets for
the MLFQ side. -/
def pinit (pr : Params) : PTable :=
  { proc := List.replicate pr.NPROC initProc
  , mlfq := { queue := List.replicate pr.QSIZE [], pin := List.replicate pr.QSIZE none,
              ticks := 0, pass := 0, tickets := 100 }
  , stride := { minheap := [], run := [] }
  , sleep := []
  , free := List.range pr.NPROC }

/-! ### `set_cpu_share` -/

/-- `set_cpu_share(share)`, called by the running process `cur`;
returns the C return value together with the post state. -/
def set_cpu_share (pr : Params) (s : PTable) (cur : Nat) (share : Int) : Int × PTable :=
  if share < 1 ∨ share > 100 - pr.RESERVE then (-1, s)
  else
    let p := getProc s cur
    let remain := s.mlfq.tickets + (if p.type = .STRIDE then p.tickets else 0)
    if pr.RESERVE ≤ remain - share then
      let s1 :=
        if p.type = .MLFQ then
          let sA := dequeue s cur
          let minpass := getminpass pr sA
          let mlfqpass := sA.mlfq.pass
          let sB := updProc sA cur (fun q =>
            { q with pass := if minpass < mlfqpass then minpass else mlfqpass,
                     type := .STRIDE })
          { sB with stride := { sB.stride with run := cur :: sB.stride.run } }
        else s
      let s2 := { s1 with mlfq := { s1.mlfq with tickets := remain - share } }
      (0, updProc s2 cur (fun q => { q with tickets := share }))
    else (-1, s)

/-! ### Lifecycle operations (scheduler-relevant parts) -/

/-- The scheduler-relevant tail of `exit()` (the removal from the
ready-set, the ticket return and the `ZOMBIE` transition; the earlier
part of `exit` closes files and wakes relatives and does not touch
tickets, types or ready-sets of the caller). -/
def exitSched (s : PTable) (cur : Nat) : PTable :=
  let s1 :=
    if (getProc s cur).type = .MLFQ then dequeue s cur
    else
      let sA := { s with mlfq := { s.mlfq with tickets := s.mlfq.tickets + (getProc s cur).tickets } }
      { sA with stride := { sA.stride with run := sA.stride.run.erase cur } }
  updProc s1 cur (fun p => { p with state := .ZOMBIE })

/-- The scheduler-relevant part of `sleep(chan, lk)`: record the
channel, leave the ready-set (MLFQ dequeue or stride run-list unlink),
become `SLEEPING` and join the sleep list (at its front,
`list_add`). -/
def sleepSched (s : PTable) (i : Nat) (c : Nat) : PTable :=
  let s1 := updProc s i (fun p => { p with chan := c })
  let s2 :=
    if (getProc s1 i).type = .MLFQ then dequeue s1 i
    else { s1 with stride := { s1.stride with run := s1.stride.run.erase i } }
  let s3 := updProc s2 i (fun p => { p with state := .SLEEPING })
  { s3 with sleep := i :: s3.sleep }

/-- `yield()`'s state change: a stride caller leaves the run list;
the caller becomes `RUNNABLE`. -/
def yieldSched (s : PTable) (i : Nat) : PTable :=
  let s1 :=
    if (getProc s i).type = .STRIDE then
      { s with stride := { s.stride with run := s.stride.run.erase i } }
    else s
  updProc s1 i (fun p => { p with state := .RUNNABLE })

/-- The body of `wakeup1`'s loop for one sleep-list node `j`: on a
channel match, unlink from the sleep list, become `RUNNABLE`, and
enqueue at the current priority level when MLFQ-typed. -/
def wakeProc (c : Nat) (s : PTable) (j : Nat) : PTable :=
  if (getProc s j).chan = c then
    let s1 := { s with sleep := s.sleep.erase j }
    let s2 := updProc s1 j (fun p => { p with state := .RUNNABLE })
    if (getProc s2 j).type = .MLFQ then enqueue s2 (getProc s2 j).privlevel j else s2
  else s

/-- `wakeup1(chan)`: walk the sleep list, waking every matching
process (the C loop's `prev`/`itr` dance makes deletion of the current
node safe, so each original node is visited once). -/
def wakeup1 (s : PTable) (c : Nat) : PTable := s.sleep.foldl (wakeProc c) s

/-- `kill(pid)`: find the first matching slot, set `killed`; a
`SLEEPING` target is unlinked from the sleep list, becomes `RUNNABLE`,
and is enqueued at its level when MLFQ-typed. -/
def kill (s : PTable) (pid : Nat) : Int × PTable :=
  match (List.range s.proc.length).find? (fun j => (getProc s j).pid == pid) with
  | none => (-1, s)
  | some j =>
    let s1 := updProc s j (fun p => { p with killed := true })
    if (getProc s1 j).state = .SLEEPING then
      let s2 := { s1 with sleep := s1.sleep.erase j }
      let s3 := updProc s2 j (fun p => { p with state := .RUNNABLE })
      (0, if (getProc s3 j).type = .MLFQ then enqueue s3 (getProc s3 j).privlevel j else s3)
    else (0, s1)

/-! ### `mlfqselect` -/

/-- The node-visit order of the per-level do-while walk: starting at
the pin (sentinel start = the whole queue in order), go once around
the circle.  Rotating the list by the pin's position reproduces the
pointer walk; the sentinel, which the walk skips, is not an entry. -/
def rotation (q : List Nat) (pin : Option Nat) : List Nat :=
  match pin with
  | none => q
  | some x =>
    let k := q.findIdx (fun j => j == x)
    q.drop k ++ q.take k

/-- The inner do-while of `mlfqselect`: the first visited node whose
process is `RUNNABLE`. -/
def findRunnable (s : PTable) : List Nat → Option Nat
  | [] => none
  | i :: rest =>
    if (getProc s i).state = .RUNNABLE then some i else findRunnable s rest

/-- The level scan of `mlfqselect`: on a hit, the pin of that level
moves to the hit node; on a miss at every level, nothing changes. -/
def mlfqselectGo (s : PTable) : List Nat → Option Nat × PTable
  | [] => (none, s)
  | l :: ls =>
    match findRunnable s (rotation (queueAt s l) (pinAt s l)) with
    | some i => (some i, setPinAt s l (some i))
    | none => mlfqselectGo s ls

/-- `mlfqselect()`: scan levels `0 .. QSIZE-1` in order. -/
def mlfqselect (pr : Params) (s : PTable) : Option Nat × PTable :=
  mlfqselectGo s (List.range pr.QSIZE)

/-! ### `mlfqlogic` -/

/-- Reset a process for the priority boost: `privlevel = 0`,
`ticks = 0`. -/
def resetProc (p : Proc) : Proc := { p with privlevel := 0, ticks := 0 }

/-- Apply the boost reset to every listed slot. -/
def resetList (s : PTable) (idxs : List Nat) : PTable :=
  idxs.foldl (fun st j => updProc st j resetProc) s

/-- One level of the boost loop: reset every process of `queue[l]`,
then splice the queue onto level 0. -/
def boostLevel (s : PTable) (l : Nat) : PTable :=
  concatqueue (resetList s (queueAt s l)) l 0

/-- The priority-boost block of `mlfqlogic`: levels `1 .. QSIZE-1` in
order, then the sleep list. -/
def boost (pr : Params) (s : PTable) : PTable :=
  let s1 := (List.range' 1 (pr.QSIZE - 1)).foldl boostLevel s
  resetList s1 s1.sleep

/-- The per-process part of `mlfqlogic(p)` (the `mlfq.ticks` increment
and the state switch).  The C `default: panic` branch (a state other
than `RUNNABLE`/`SLEEPING`/`ZOMBIE`) is modelled as a no-op and never
reached under the theorems' hypotheses. -/
def mlfqTick (pr : Params) (i : Nat) (s : PTable) : PTable :=
  let s0 := { s with mlfq := { s.mlfq with ticks := s.mlfq.ticks + 1 } }
  let p := getProc s0 i
  match p.state with
  | .RUNNABLE =>
    let s1 := updProc s0 i (fun q => { q with ticks := q.ticks + 1 })
    let p1 := getProc s1 i
    if p1.privlevel < pr.QSIZE - 1 ∧ p1.ticks % pr.TA p1.privlevel = 0 then
      let s2 := dequeue s1 i
      let s3 := updProc s2 i (fun q => { q with privlevel := q.privlevel + 1 })
      let s4 := enqueue s3 (getProc s3 i).privlevel i
      updProc s4 i (fun q => { q with ticks := 0 })
    else if p1.ticks % pr.TQ p1.privlevel = 0 then
      setPinAt s1 p1.privlevel (nextOf (queueAt s1 p1.privlevel) i)
    else s1
  | .SLEEPING =>
    if p.privlevel < pr.QSIZE - 1 ∧ pr.TA p.privlevel ≤ p.ticks then
      updProc s0 i (fun q => { q with privlevel := q.privlevel + 1, ticks := 0 })
    else
      updProc s0 i (fun q => { q with ticks := q.ticks / pr.TQ q.privlevel * pr.TQ q.privlevel })
  | _ => s0

/-- `mlfqlogic(p)`: the per-process logic, then the priority boost
when the incremented global tick count hits a `BOOSTINTERVAL`
boundary. -/
def mlfqlogic (pr : Params) (i : Nat) (s : PTable) : PTable :=
  let s1 := mlfqTick pr i s
  if s1.mlfq.ticks % pr.BOOSTINTERVAL = 0 then boost pr s1 else s1

/-! ### `stridelogic` and the scheduler loop -/

/-- The `minpass` of `stridelogic`: the MLFQ pass when nothing ran or
an MLFQ process ran, else the departing stride process's pass. -/
def minpassOf (s : PTable) (po : Option Nat) : Int :=
  match po with
  | none => s.mlfq.pass
  | some i => if (getProc s i).type = .MLFQ then s.mlfq.pass else (getProc s i).pass

/-- Subtract `m` from a process's pass. -/
def subPass (m : Int) (p : Proc) : Proc := { p with pass := p.pass - m }

/-- The overflow-rebase block of `stridelogic`: subtract `minpass`
from the pass of every heap entry, of every run-list entry, and of the
MLFQ side. -/
def rebase (s : PTable) (m : Int) : PTable :=
  let s1 := s.stride.minheap.foldl (fun st j => updProc st j (subPass m)) s
  let s2 := s1.stride.run.foldl (fun st j => updProc st j (subPass m)) s1
  { s2 with mlfq := { s2.mlfq with pass := s2.mlfq.pass - m } }

/-- `stridelogic(p)`: overflow rebase when `minpass > BARRIER`, then
pass advancing — the MLFQ side when nothing ran or MLFQ ran; a
departing stride process advances and is pushed back on the heap only
while `RUNNABLE` or `SLEEPING`. -/
def stridelogic (pr : Params) (po : Option Nat) (s : PTable) : PTable :=
  let m := minpassOf s po
  let s1 := if pr.BARRIER < m then rebase s m else s
  match po with
  | none => { s1 with mlfq := { s1.mlfq with pass := s1.mlfq.pass + STRD pr s1.mlfq.tickets } }
  | some i =>
    if (getProc s1 i).type = .MLFQ then
      { s1 with mlfq := { s1.mlfq with pass := s1.mlfq.pass + STRD pr s1.mlfq.tickets } }
    else if (getProc s1 i).state = .RUNNABLE ∨ (getProc s1 i).state = .SLEEPING then
      let s2 := updProc s1 i (fun p => { p with pass := p.pass + STRD pr p.tickets })
      pushheap s2 i
    else s1

/-- The selection step of the scheduler loop: pop the heap when its
minimum pass beats the MLFQ pass, else run the MLFQ selection. -/
def schedPick (pr : Params) (s : PTable) : Option Nat × PTable :=
  if getminpass pr s < s.mlfq.pass then
    let r := popheap s
    (some r.1, r.2)
  else mlfqselect pr s

/-- One scheduler iteration in the case where the selected process is
not run (`p == 0` or `p->state != RUNNABLE`): selection followed
directly by `stridelogic`.  (The branch that context-switches into a
`RUNNABLE` pick is not a pure state transformer and is not modelled;
the theorems' hypotheses put us in the not-run case.) -/
def schedulerIdle (pr : Params) (s : PTable) : PTable :=
  let r := schedPick pr s
  stridelogic pr r.1 r.2

/-- `inctick()`: charge one tick to the caller (used by `sys_sleep`). -/
def inctick (s : PTable) (i : Nat) : PTable :=
  updProc s i (fun p => { p with ticks := p.ticks + 1 })

/-! ### Specification-level predicates -/

/-- A process counts toward the stride ticket sum while `RUNNABLE`,
`SLEEPING` or `RUNNING` and STRIDE-typed. -/
def strideContrib (p : Proc) : Int :=
  if p.type = .STRIDE ∧ (p.state = .RUNNABLE ∨ p.state = .SLEEPING ∨ p.state = .RUNNING)
  then p.tickets else 0

/-- The total stride tickets over all live stride processes. -/
def strideSum (s : PTable) : Int := (s.proc.map strideContrib).sum

/-- Conservation of tickets. -/
def ticketInv (s : PTable) : Prop := s.mlfq.tickets + strideSum s = 100

instance (s : PTable) : Decidable (ticketInv s) :=
  inferInstanceAs (Decidable (_ = _))

/-- The min-heap property on `minheap[1..size]` with key `f`. -/
def IsHeap (f : Nat → Int) (hp : List Nat) : Prop :=
  ∀ j < hp.length + 1, 2 ≤ j → f (hget hp (j / 2)) ≤ f (hget hp j)

instance (f : Nat → Int) (hp : List Nat) : Decidable (IsHeap f hp) :=
  inferInstanceAs (Decidable (∀ j < hp.length + 1, 2 ≤ j → _ ≤ _))

/-- Pin validity: each pin rests on its level's sentinel (`none`) or
on a node currently in that level's queue.  (A level index at or above
the pin-array length has no pin; the quantifier is bounded so the
predicate is decidable.) -/
def PinInv (s : PTable) : Prop :=
  ∀ l < s.mlfq.pin.length, ∀ j, pinAt s l = some j → j ∈ queueAt s l

instance (s : PTable) : Decidable (PinInv s) :=
  decidable_of_iff (∀ l < s.mlfq.pin.length,
      (pinAt s l).all (fun j => decide (j ∈ queueAt s l)) = true) (by
    constructor
    · intro h l hl j hj
      have h2 := h l hl
      rw [hj] at h2
      simpa using h2
    · intro h l hl
      cases hp : pinAt s l with
      | none => rfl
      | some j => simpa using h l hl j hp)

/-! ### Concrete instances used by witnesses and counterexamples -/

/-- A concrete tunable assignment (two levels, RESERVE 20, quantum 5
and allotment 20 at every level). -/
def cpr : Params :=
  { NPROC := 2, QSIZE := 2, BOOSTINTERVAL := 100, RESERVE := 20, LARGE := 1000,
    BARRIER := 500, MAXINT := 1000000, TQ := fun _ => 5, TA := fun _ => 20 }

/-- A running MLFQ process in queue 0 about to call `set_cpu_share`. -/
def csShare : PTable :=
  { proc := [{ initProc with state := .RUNNING }, initProc]
  , mlfq := { queue := [[0], []], pin := [none, none], ticks := 0, pass := 0, tickets := 100 }
  , stride := { minheap := [], run := [] }, sleep := [], free := [1] }

/-- A running STRIDE process holding 30 tickets, about to exit. -/
def csExit : PTable :=
  { proc := [{ initProc with state := .RUNNING, type := .STRIDE, tickets := 30 }, initProc]
  , mlfq := { queue := [[], []], pin := [none, none], ticks := 0, pass := 0, tickets := 70 }
  , stride := { minheap := [], run := [0] }, sleep := [], free := [1] }

/-- One MLFQ process sleeping on channel 5. -/
def csWake : PTable :=
  { proc := [initProc, { initProc with state := .SLEEPING, chan := 5, pid := 1 }]
  , mlfq := { queue := [[], []], pin := [none, none], ticks := 0, pass := 0, tickets := 100 }
  , stride := { minheap := [], run := [] }, sleep := [1], free := [0] }


/-- A departing stride runner whose pass just crossed BARRIER (= 500
in `cpr`): slot 0 runs (popped from the heap, removed from the run
list by `yield`), slot 1 stays in the heap. -/
def cs6 : PTable :=
  { proc := [{ initProc with state := .RUNNABLE, type := .STRIDE, tickets := 10, pass := 501 },
             { initProc with state := .SLEEPING, type := .STRIDE, tickets := 10, pass := 502 }]
  , mlfq := { queue := [[], []], pin := [none, none], ticks := 0, pass := 503, tickets := 80 }
  , stride := { minheap := [1], run := [] }, sleep := [1], free := [] }

/-- A rebase instance with every stride process on the heap or run
list: the MLFQ pass (the minimum) triggers the rebase. -/
def cw6 : PTable :=
  { proc := [{ initProc with state := .RUNNABLE, type := .STRIDE, tickets := 10, pass := 501 },
             { initProc with state := .SLEEPING, type := .STRIDE, tickets := 10, pass := 600 }]
  , mlfq := { queue := [[], []], pin := [none, none], ticks := 0, pass := 501, tickets := 80 }
  , stride := { minheap := [1], run := [0] }, sleep := [1], free := [] }


/-- A STRIDE process sleeping on channel 7; per the sleeping-stride
invariant it is simultaneously on the sleep list and in the heap. -/
def csC4 : PTable :=
  { proc := [{ initProc with state := .SLEEPING, type := .STRIDE, tickets := 10, pass := 5, chan := 7 }]
  , mlfq := { queue := [[], []], pin := [none, none], ticks := 0, pass := 0, tickets := 90 }
  , stride := { minheap := [0], run := [] }, sleep := [0], free := [] }


/-- An MLFQ process at level 0 one tick away from its allotment
(TA = 20), about to be demoted. -/
def csDemote : PTable :=
  { proc := [{ initProc with state := .RUNNABLE, ticks := 19 }]
  , mlfq := { queue := [[0], []], pin := [none, none], ticks := 0, pass := 0, tickets := 100 }
  , stride := { minheap := [], run := [] }, sleep := [], free := [] }

/-- Two MLFQ peers at level 0; the pinned one is one tick away from
exhausting its quantum (TQ = 5), about to rotate. -/
def csRotate : PTable :=
  { proc := [{ initProc with state := .RUNNABLE, ticks := 4 },
             { initProc with state := .RUNNABLE, pid := 1 }]
  , mlfq := { queue := [[0, 1], []], pin := [some 0, none], ticks := 0, pass := 0, tickets := 100 }
  , stride := { minheap := [], run := [] }, sleep := [], free := [] }

/-- Three stride processes whose passes 5, 7, 6 fill a valid min-heap
`[0, 1, 2]`; slot 2 is asleep. -/
def cs5 : PTable :=
  { proc := [{ initProc with state := .RUNNABLE, type := .STRIDE, tickets := 30, pass := 5 },
             { initProc with state := .RUNNABLE, type := .STRIDE, tickets := 30, pass := 7 },
             { initProc with state := .SLEEPING, type := .STRIDE, tickets := 40, pass := 6 }]
  , mlfq := { queue := [[], []], pin := [none, none], ticks := 0, pass := 0, tickets := 0 }
  , stride := { minheap := [0, 1, 2], run := [] }, sleep := [2], free := [] }

/-- A level-0 MLFQ process one global tick before a boost boundary
(`mlfq.ticks = 99`, `BOOSTINTERVAL = 100`), holding 2 private ticks. -/
def c3s : PTable :=
  { proc := [{ initProc with state := .RUNNABLE, ticks := 2 }]
  , mlfq := { queue := [[0], []], pin := [none, none], ticks := 99, pass := 0, tickets := 100 }
  , stride := { minheap := [], run := [] }, sleep := [], free := [] }

/-- Boost-time snapshot: slot 0 resides at level 0 with 3 ticks, slot 1
at level 1 with 7 ticks, slot 2 asleep at level 1 with 2 ticks. -/
def c3w : PTable :=
  { proc := [{ initProc with state := .RUNNABLE, ticks := 3 },
             { initProc with state := .RUNNABLE, privlevel := 1, ticks := 7 },
             { initProc with state := .SLEEPING, privlevel := 1, ticks := 2 }]
  , mlfq := { queue := [[0], [1]], pin := [none, none], ticks := 100, pass := 0, tickets := 100 }
  , stride := { minheap := [], run := [] }, sleep := [2], free := [] }

/-- A sleeping stride process at the heap root, its pass (10) beating
the MLFQ pass (20). -/
def c10 : PTable :=
  { proc := [{ initProc with state := .SLEEPING, type := .STRIDE, tickets := 50, pass := 10 }]
  , mlfq := { queue := [[], []], pin := [none, none], ticks := 0, pass := 20, tickets := 50 }
  , stride := { minheap := [0], run := [] }, sleep := [0], free := [] }

/-- The same slot as a `ZOMBIE`: `stridelogic` must drop it. -/
def c10z : PTable :=
  { proc := [{ initProc with state := .ZOMBIE, type := .STRIDE, tickets := 50, pass := 10 }]
  , mlfq := { queue := [[], []], pin := [none, none], ticks := 0, pass := 20, tickets := 50 }
  , stride := { minheap := [0], run := [] }, sleep := [0], free := [] }

/-- A running stride process on the run list, about to block. -/
def c10r : PTable :=
  { proc := [{ initProc with state := .RUNNING, type := .STRIDE, tickets := 50, pass := 10 }]
  , mlfq := { queue := [[], []], pin := [none, none], ticks := 0, pass := 20, tickets := 50 }
  , stride := { minheap := [], run := [0] }, sleep := [], free := [] }

/-! ## Basic lemmas about list reads and writes -/

theorem getD_set_eq {α : Type} (l : List α) (i : Nat) (v d : α) (h : i < l.length) :
    (l.set i v).getD i d = v := by
  simp [List.getD_eq_getElem?_getD, List.getElem?_set_self', h]

theorem getD_set_ne {α : Type} (l : List α) (i j : Nat) (v d : α) (h : i ≠ j) :
    (l.set i v).getD j d = l.getD j d := by
  simp [List.getD_eq_getElem?_getD, List.getElem?_set_ne h]

theorem getD_append_left {α : Type} (l l' : List α) (i : Nat) (d : α) (h : i < l.length) :
    (l ++ l').getD i d = l.getD i d := by
  simp [List.getD_eq_getElem?_getD, List.getElem?_append_left h]

@[simp] theorem getProc_setProc_ne (s : PTable) (i j : Nat) (p : Proc) (h : i ≠ j) :
    getProc (setProc s i p) j = getProc s j := by
  simp [getProc, setProc, List.getD_eq_getElem?_getD, List.getElem?_set_ne h]

theorem getProc_setProc_eq (s : PTable) (i : Nat) (p : Proc) (h : i < s.proc.length) :
    getProc (setProc s i p) i = p := by
  simp [getProc, setProc, List.getD_eq_getElem?_getD, List.getElem?_set_self', h]

theorem getProc_updProc_eq (s : PTable) (i : Nat) (g : Proc → Proc) (h : i < s.proc.length) :
    getProc (updProc s i g) i = g (getProc s i) := by
  simp [updProc, getProc_setProc_eq _ _ _ h]

@[simp] theorem getProc_updProc_ne (s : PTable) (i j : Nat) (g : Proc → Proc) (h : i ≠ j) :
    getProc (updProc s i g) j = getProc s j := by
  simp [updProc, h]

@[simp] theorem setProc_mlfq (s : PTable) (i : Nat) (p : Proc) :
    (setProc s i p).mlfq = s.mlfq := rfl

@[simp] theorem setProc_stride (s : PTable) (i : Nat) (p : Proc) :
    (setProc s i p).stride = s.stride := rfl

@[simp] theorem setProc_sleep (s : PTable) (i : Nat) (p : Proc) :
    (setProc s i p).sleep = s.sleep := rfl

@[simp] theorem setProc_free (s : PTable) (i : Nat) (p : Proc) :
    (setProc s i p).free = s.free := rfl

@[simp] theorem setProc_length (s : PTable) (i : Nat) (p : Proc) :
    (setProc s i p).proc.length = s.proc.length := by
  simp [setProc]

@[simp] theorem updProc_mlfq (s : PTable) (i : Nat) (g : Proc → Proc) :
    (updProc s i g).mlfq = s.mlfq := rfl

@[simp] theorem updProc_stride (s : PTable) (i : Nat) (g : Proc → Proc) :
    (updProc s i g).stride = s.stride := rfl

@[simp] theorem updProc_sleep (s : PTable) (i : Nat) (g : Proc → Proc) :
    (updProc s i g).sleep = s.sleep := rfl

@[simp] theorem updProc_free (s : PTable) (i : Nat) (g : Proc → Proc) :
    (updProc s i g).free = s.free := rfl

@[simp] theorem updProc_length (s : PTable) (i : Nat) (g : Proc → Proc) :
    (updProc s i g).proc.length = s.proc.length := by
  simp [updProc]

@[simp] theorem setQueueAt_proc (s : PTable) (l : Nat) (q : List Nat) :
    (setQueueAt s l q).proc = s.proc := rfl

@[simp] theorem setQueueAt_stride (s : PTable) (l : Nat) (q : List Nat) :
    (setQueueAt s l q).stride = s.stride := rfl

@[simp] theorem setQueueAt_sleep (s : PTable) (l : Nat) (q : List Nat) :
    (setQueueAt s l q).sleep = s.sleep := rfl

@[simp] theorem setQueueAt_pin (s : PTable) (l : Nat) (q : List Nat) :
    (setQueueAt s l q).mlfq.pin = s.mlfq.pin := rfl

@[simp] theorem setQueueAt_ticks (s : PTable) (l : Nat) (q : List Nat) :
    (setQueueAt s l q).mlfq.ticks = s.mlfq.ticks := rfl

@[simp] theorem setQueueAt_pass (s : PTable) (l : Nat) (q : List Nat) :
    (setQueueAt s l q).mlfq.pass = s.mlfq.pass := rfl

@[simp] theorem setQueueAt_tickets (s : PTable) (l : Nat) (q : List Nat) :
    (setQueueAt s l q).mlfq.tickets = s.mlfq.tickets := rfl

@[simp] theorem setPinAt_proc (s : PTable) (l : Nat) (p : Option Nat) :
    (setPinAt s l p).proc = s.proc := rfl

@[simp] theorem setPinAt_stride (s : PTable) (l : Nat) (p : Option Nat) :
    (setPinAt s l p).stride = s.stride := rfl

@[simp] theorem setPinAt_sleep (s : PTable) (l : Nat) (p : Option Nat) :
    (setPinAt s l p).sleep = s.sleep := rfl

@[simp] theorem setPinAt_queue (s : PTable) (l : Nat) (p : Option Nat) :
    (setPinAt s l p).mlfq.queue = s.mlfq.queue := rfl

@[simp] theorem setPinAt_ticks (s : PTable) (l : Nat) (p : Option Nat) :
    (setPinAt s l p).mlfq.ticks = s.mlfq.ticks := rfl

@[simp] theorem setPinAt_pass (s : PTable) (l : Nat) (p : Option Nat) :
    (setPinAt s l p).mlfq.pass = s.mlfq.pass := rfl

@[simp] theorem setPinAt_tickets (s : PTable) (l : Nat) (p : Option Nat) :
    (setPinAt s l p).mlfq.tickets = s.mlfq.tickets := rfl

@[simp] theorem queueAt_setPinAt (s : PTable) (l m : Nat) (p : Option Nat) :
    queueAt (setPinAt s l p) m = queueAt s m := rfl

@[simp] theorem pinAt_setQueueAt (s : PTable) (l m : Nat) (q : List Nat) :
    pinAt (setQueueAt s l q) m = pinAt s m := rfl

@[simp] theorem queueAt_setProc (s : PTable) (i : Nat) (p : Proc) (m : Nat) :
    queueAt (setProc s i p) m = queueAt s m := rfl

@[simp] theorem pinAt_setProc (s : PTable) (i : Nat) (p : Proc) (m : Nat) :
    pinAt (setProc s i p) m = pinAt s m := rfl

@[simp] theorem queueAt_updProc (s : PTable) (i : Nat) (g : Proc → Proc) (m : Nat) :
    queueAt (updProc s i g) m = queueAt s m := rfl

@[simp] theorem pinAt_updProc (s : PTable) (i : Nat) (g : Proc → Proc) (m : Nat) :
    pinAt (updProc s i g) m = pinAt s m := rfl

theorem queueAt_setQueueAt_eq (s : PTable) (l : Nat) (q : List Nat)
    (h : l < s.mlfq.queue.length) : queueAt (setQueueAt s l q) l = q := by
  simp [queueAt, setQueueAt, List.getD_eq_getElem?_getD, List.getElem?_set_self', h]

@[simp] theorem queueAt_setQueueAt_ne (s : PTable) (l m : Nat) (q : List Nat) (h : l ≠ m) :
    queueAt (setQueueAt s l q) m = queueAt s m := by
  simp [queueAt, setQueueAt, List.getD_eq_getElem?_getD, List.getElem?_set_ne h]

theorem pinAt_setPinAt_eq (s : PTable) (l : Nat) (p : Option Nat)
    (h : l < s.mlfq.pin.length) : pinAt (setPinAt s l p) l = p := by
  simp [pinAt, setPinAt, List.getD_eq_getElem?_getD, List.getElem?_set_self', h]

@[simp] theorem pinAt_setPinAt_ne (s : PTable) (l m : Nat) (p : Option Nat) (h : l ≠ m) :
    pinAt (setPinAt s l p) m = pinAt s m := by
  simp [pinAt, setPinAt, List.getD_eq_getElem?_getD, List.getElem?_set_ne h]

@[simp] theorem setQueueAt_queue_length (s : PTable) (l : Nat) (q : List Nat) :
    (setQueueAt s l q).mlfq.queue.length = s.mlfq.queue.length := by
  simp [setQueueAt]

@[simp] theorem setPinAt_pin_length (s : PTable) (l : Nat) (p : Option Nat) :
    (setPinAt s l p).mlfq.pin.length = s.mlfq.pin.length := by
  simp [setPinAt]

/-! ## C2: error handling of `set_cpu_share` -/

/-- C2: `set_cpu_share(share)` returns -1 exactly when `share < 1`, or
`share > 100 - RESERVE`, or admission would leave `mlfq.tickets` below
`RESERVE` (the pool plus the caller's current stride tickets, minus
`share`, is below `RESERVE`); every failing call leaves the whole
scheduler state unchanged; a successful call returns 0 and decrements
`mlfq.tickets` by exactly the newly granted share (the requested share
minus the caller's previous stride tickets, which are 0 for an MLFQ
caller). -/
theorem set_cpu_share_spec (pr : Params) (s : PTable) (cur : Nat) (share : Int) :
    ((set_cpu_share pr s cur share).1 = -1 ↔
      share < 1 ∨ share > 100 - pr.RESERVE ∨
      s.mlfq.tickets + (if (getProc s cur).type = .STRIDE then (getProc s cur).tickets else 0)
        - share < pr.RESERVE) ∧
    ((set_cpu_share pr s cur share).1 = -1 → (set_cpu_share pr s cur share).2 = s) ∧
    ((set_cpu_share pr s cur share).1 ≠ -1 →
      (set_cpu_share pr s cur share).1 = 0 ∧
      (set_cpu_share pr s cur share).2.mlfq.tickets =
        s.mlfq.tickets -
          (share - (if (getProc s cur).type = .STRIDE then (getProc s cur).tickets else 0))) := by
  unfold set_cpu_share
  cases hty : (getProc s cur).type <;>
    simp only [hty] <;>
    split_ifs <;>
      simp_all [updProc, setProc, dequeue, setQueueAt, setPinAt] <;> omega

/-! ## C1: conservation of tickets -/

theorem sum_map_set {α : Type} (f : α → Int) (l : List α) (i : Nat) (a d : α)
    (h : i < l.length) :
    ((l.set i a).map f).sum = (l.map f).sum - f (l.getD i d) + f a := by
  induction l generalizing i with
  | nil => simp at h
  | cons x xs ih =>
    cases i with
    | zero => simp [List.set]; ring
    | succ n =>
      simp only [List.set, List.map_cons, List.sum_cons, List.getD_cons_succ]
      have := ih n (by simpa using h)
      omega

theorem strideSum_updProc (s : PTable) (i : Nat) (g : Proc → Proc)
    (h : i < s.proc.length) :
    strideSum (updProc s i g) =
      strideSum s - strideContrib (getProc s i) + strideContrib (g (getProc s i)) := by
  simp only [strideSum, updProc, setProc, getProc]
  exact sum_map_set strideContrib s.proc i _ initProc h

theorem strideContrib_state_change (p : Proc) (st : PState)
    (h1 : p.state = .RUNNABLE ∨ p.state = .SLEEPING ∨ p.state = .RUNNING)
    (h2 : st = .RUNNABLE ∨ st = .SLEEPING ∨ st = .RUNNING) :
    strideContrib { p with state := st } = strideContrib p := by
  simp [strideContrib, h1, h2]

theorem ticketInv_pinit (pr : Params) : ticketInv (pinit pr) := by
  simp [ticketInv, strideSum, pinit, strideContrib, initProc, List.map_replicate]

theorem set_cpu_share_success_shape (pr : Params) (s : PTable) (cur : Nat) (share : Int)
    (h1 : ¬(share < 1 ∨ share > 100 - pr.RESERVE))
    (h2 : pr.RESERVE ≤ s.mlfq.tickets +
      (if (getProc s cur).type = .STRIDE then (getProc s cur).tickets else 0) - share)
    (hc : cur < s.proc.length) :
    ∃ q : Proc,
      (set_cpu_share pr s cur share).2.proc = s.proc.set cur q ∧
      q.type = .STRIDE ∧ q.state = (getProc s cur).state ∧ q.tickets = share ∧
      (set_cpu_share pr s cur share).2.mlfq.tickets =
        s.mlfq.tickets +
          (if (getProc s cur).type = .STRIDE then (getProc s cur).tickets else 0) - share := by
  cases hty : (getProc s cur).type
  case MLFQ =>
    simp only [hty] at h2
    simp only [reduceCtorEq, if_false, add_zero] at h2
    simp only [set_cpu_share, if_neg h1, hty, reduceCtorEq, if_false, if_true, add_zero,
      if_pos h2, eq_self_iff_true, ite_true]
    refine ⟨{ getProc s cur with
                type := .STRIDE, tickets := share,
                pass := (if getminpass pr (dequeue s cur) < (dequeue s cur).mlfq.pass
                         then getminpass pr (dequeue s cur) else (dequeue s cur).mlfq.pass) },
            ?_, rfl, rfl, rfl, rfl⟩
    have hdp : (dequeue s cur).proc = s.proc := rfl
    simp only [updProc, setProc, getProc, hdp, List.set_set, getD_set_eq _ _ _ _ hc]
  case STRIDE =>
    simp only [hty] at h2
    simp only [eq_self_iff_true, if_true] at h2
    simp only [set_cpu_share, if_neg h1, hty, reduceCtorEq, if_false, add_zero,
      if_pos h2, eq_self_iff_true, ite_true]
    refine ⟨{ getProc s cur with tickets := share }, ?_, hty, rfl, rfl, rfl⟩
    simp only [updProc, setProc, getProc, List.set_set, getD_set_eq _ _ _ _ hc]

theorem ticketInv_set_cpu_share (pr : Params) (s : PTable) (cur : Nat) (share : Int)
    (h : ticketInv s) (hc : cur < s.proc.length)
    (hrun : (getProc s cur).state = .RUNNING) :
    ticketInv (set_cpu_share pr s cur share).2 := by
  by_cases h1 : share < 1 ∨ share > 100 - pr.RESERVE
  · unfold set_cpu_share; rw [if_pos h1]; exact h
  · by_cases h2 : pr.RESERVE ≤ s.mlfq.tickets +
        (if (getProc s cur).type = .STRIDE then (getProc s cur).tickets else 0) - share
    · obtain ⟨q, hpr, hqt, hqs, hqk, htk⟩ :=
        set_cpu_share_success_shape pr s cur share h1 h2 hc
      simp only [ticketInv, strideSum] at h ⊢
      rw [hpr, htk, sum_map_set strideContrib s.proc cur q initProc hc]
      have hcon : strideContrib q = share := by
        simp [strideContrib, hqt, hqs, hqk, hrun]
      have hcon2 : strideContrib (getProc s cur) =
          (if (getProc s cur).type = .STRIDE then (getProc s cur).tickets else 0) := by
        simp [strideContrib, hrun]
      rw [hcon]
      rw [show s.proc.getD cur initProc = getProc s cur from rfl, hcon2]
      omega
    · unfold set_cpu_share
      rw [if_neg h1]
      cases hty : (getProc s cur).type <;> simp only [hty] at h2 ⊢ <;>
        rw [if_neg (by simpa using h2)] <;> exact h

theorem ticketInv_exitSched (s : PTable) (cur : Nat)
    (h : ticketInv s) (hc : cur < s.proc.length)
    (hrun : (getProc s cur).state = .RUNNING)
    (hty : (getProc s cur).type = .STRIDE) :
    ticketInv (exitSched s cur) ∧
      (exitSched s cur).mlfq.tickets = s.mlfq.tickets + (getProc s cur).tickets := by
  unfold exitSched
  simp only [hty]
  constructor
  · simp only [ticketInv] at h ⊢
    rw [strideSum_updProc _ _ _ (by simpa using hc)]
    simp only [getProc, List.getD_eq_getElem?_getD] at hrun hty
    simp [strideSum, getProc, strideContrib, hrun, hty, List.getD_eq_getElem?_getD] at h ⊢
    omega
  · rfl

theorem getProc_out_of_range (s : PTable) (i : Nat) (h : s.proc.length ≤ i) :
    getProc s i = initProc := by
  simp [getProc, List.getD_eq_getElem?_getD, List.getElem?_eq_none h]

@[simp] theorem getProc_enqueue (s : PTable) (l i k : Nat) :
    getProc (enqueue s l i) k = getProc s k := rfl

theorem getProc_wakeProc_ne (c : Nat) (s : PTable) (j k : Nat) (hjk : j ≠ k) :
    getProc (wakeProc c s j) k = getProc s k := by
  unfold wakeProc
  split_ifs with h1
  · simp only [apply_ite (fun t : PTable => getProc t k), getProc_enqueue,
      getProc_updProc_ne _ _ _ _ hjk, ite_self]
    rfl
  · rfl

@[simp] theorem strideSum_enqueue (s : PTable) (l i : Nat) :
    strideSum (enqueue s l i) = strideSum s := rfl

theorem wakeProc_tickets (c : Nat) (s : PTable) (j : Nat) :
    (wakeProc c s j).mlfq.tickets = s.mlfq.tickets := by
  unfold wakeProc
  split_ifs with h1
  · simp only [apply_ite (fun t : PTable => t.mlfq.tickets), setQueueAt_tickets,
      updProc_mlfq, ite_self, enqueue]
  · rfl

theorem strideSum_wakeProc (c : Nat) (s : PTable) (j : Nat)
    (hsl : (getProc s j).state = .SLEEPING) :
    strideSum (wakeProc c s j) = strideSum s := by
  have hj : j < s.proc.length := by
    by_contra hge
    rw [getProc_out_of_range s j (by omega)] at hsl
    simp [initProc] at hsl
  unfold wakeProc
  split_ifs with h1
  · simp only [apply_ite (fun t : PTable => strideSum t), strideSum_enqueue, ite_self]
    rw [strideSum_updProc _ _ _ (by simpa using hj)]
    have hg : getProc { s with sleep := s.sleep.erase j } j = getProc s j := rfl
    rw [hg, strideContrib_state_change (getProc s j) PState.RUNNABLE (by simp [hsl]) (by simp)]
    have hs : strideSum { s with sleep := s.sleep.erase j } = strideSum s := rfl
    rw [hs]; ring
  · rfl

theorem ticketInv_wake_fold (c : Nat) (L : List Nat) : ∀ (s : PTable),
    ticketInv s → (∀ j ∈ L, (getProc s j).state = .SLEEPING) → L.Nodup →
    ticketInv (L.foldl (wakeProc c) s) := by
  induction L with
  | nil => intro s h _ _; exact h
  | cons j rest ih =>
    intro s h hsl hnd
    obtain ⟨hj, hnd'⟩ := List.nodup_cons.mp hnd
    simp only [List.foldl_cons]
    apply ih
    · have hS := strideSum_wakeProc c s j (hsl j (by simp))
      have hT := wakeProc_tickets c s j
      simp only [ticketInv] at h ⊢
      omega
    · intro k hk
      rw [getProc_wakeProc_ne c s j k (by rintro rfl; exact hj hk)]
      exact hsl k (by simp [hk])
    · exact hnd'

theorem ticketInv_wakeup1 (s : PTable) (c : Nat)
    (h : ticketInv s) (hsl : ∀ j ∈ s.sleep, (getProc s j).state = .SLEEPING)
    (hnd : s.sleep.Nodup) :
    ticketInv (wakeup1 s c) :=
  ticketInv_wake_fold c s.sleep s h hsl hnd

/-- C1: conservation of tickets.  `pinit` establishes
`mlfq.tickets + Σ stride tickets = 100` (no stride process exists and
the pool is 100); every `set_cpu_share` call preserves it (successful
or not); the scheduler-relevant tail of `exit` for a STRIDE caller
returns the caller's tickets to `mlfq.tickets` and preserves the
invariant; the `wakeup1` calls in the earlier part of `exit` preserve
it as well. -/
theorem ticket_conservation (pr : Params) :
    ticketInv (pinit pr) ∧
    (∀ s cur share, ticketInv s → cur < s.proc.length →
      (getProc s cur).state = .RUNNING →
      ticketInv (set_cpu_share pr s cur share).2) ∧
    (∀ s cur, ticketInv s → cur < s.proc.length →
      (getProc s cur).state = .RUNNING → (getProc s cur).type = .STRIDE →
      ticketInv (exitSched s cur) ∧
        (exitSched s cur).mlfq.tickets = s.mlfq.tickets + (getProc s cur).tickets) ∧
    (∀ s c, ticketInv s → (∀ j ∈ s.sleep, (getProc s j).state = .SLEEPING) →
      s.sleep.Nodup → ticketInv (wakeup1 s c)) :=
  ⟨ticketInv_pinit pr,
   fun s cur share h hc hr => ticketInv_set_cpu_share pr s cur share h hc hr,
   fun s cur h hc hr ht => ticketInv_exitSched s cur h hc hr ht,
   fun s c h hs hn => ticketInv_wakeup1 s c h hs hn⟩

/-- Witness for the C1 theorem: all four conservation parts applied at
concrete states. -/
theorem ticket_conservation_witness :
    ticketInv (pinit cpr) ∧
    ticketInv (set_cpu_share cpr csShare 0 30).2 ∧
    ticketInv (exitSched csExit 0) ∧
    ticketInv (wakeup1 csWake 5) :=
  ⟨(ticket_conservation cpr).1,
   (ticket_conservation cpr).2.1 csShare 0 30 (by decide) (by decide) (by decide),
   ((ticket_conservation cpr).2.2.1 csExit 0 (by decide) (by decide) (by decide)
     (by decide)).1,
   (ticket_conservation cpr).2.2.2 csWake 5 (by decide) (by decide) (by decide)⟩

/-! ## C6: the overflow rebase of `stridelogic` -/

theorem foldl_updProc_mlfq (g : Proc → Proc) (K : List Nat) : ∀ s : PTable,
    (K.foldl (fun st i => updProc st i g) s).mlfq = s.mlfq := by
  induction K with
  | nil => intro s; rfl
  | cons k ks ih => intro s; simpa using ih (updProc s k g)

theorem foldl_updProc_stride (g : Proc → Proc) (K : List Nat) : ∀ s : PTable,
    (K.foldl (fun st i => updProc st i g) s).stride = s.stride := by
  induction K with
  | nil => intro s; rfl
  | cons k ks ih => intro s; simpa using ih (updProc s k g)

theorem foldl_updProc_sleep (g : Proc → Proc) (K : List Nat) : ∀ s : PTable,
    (K.foldl (fun st i => updProc st i g) s).sleep = s.sleep := by
  induction K with
  | nil => intro s; rfl
  | cons k ks ih => intro s; simpa using ih (updProc s k g)

theorem foldl_updProc_free (g : Proc → Proc) (K : List Nat) : ∀ s : PTable,
    (K.foldl (fun st i => updProc st i g) s).free = s.free := by
  induction K with
  | nil => intro s; rfl
  | cons k ks ih => intro s; simpa using ih (updProc s k g)

theorem foldl_updProc_length (g : Proc → Proc) (K : List Nat) : ∀ s : PTable,
    (K.foldl (fun st i => updProc st i g) s).proc.length = s.proc.length := by
  induction K with
  | nil => intro s; rfl
  | cons k ks ih => intro s; simpa using ih (updProc s k g)

theorem foldl_updProc_notMem (g : Proc → Proc) (K : List Nat) : ∀ (s : PTable) (j : Nat),
    j ∉ K → getProc (K.foldl (fun st i => updProc st i g) s) j = getProc s j := by
  induction K with
  | nil => intro s j _; rfl
  | cons k ks ih =>
    intro s j hj
    simp only [List.mem_cons, not_or] at hj
    simp only [List.foldl_cons]
    rw [ih (updProc s k g) j hj.2, getProc_updProc_ne _ _ _ _ (Ne.symm hj.1)]

theorem foldl_updProc_mem (g : Proc → Proc) (K : List Nat) : ∀ (s : PTable) (j : Nat),
    K.Nodup → j ∈ K → j < s.proc.length →
    getProc (K.foldl (fun st i => updProc st i g) s) j = g (getProc s j) := by
  induction K with
  | nil => intro s j _ hj; simp at hj
  | cons k ks ih =>
    intro s j hnd hj hlen
    obtain ⟨hk, hnd2⟩ := List.nodup_cons.mp hnd
    simp only [List.foldl_cons]
    rcases List.mem_cons.mp hj with rfl | hj2
    · rw [foldl_updProc_notMem g ks (updProc s j g) j hk,
        getProc_updProc_eq _ _ _ hlen]
    · have hkj : k ≠ j := by rintro rfl; exact hk hj2
      rw [ih (updProc s k g) j hnd2 hj2 (by simpa using hlen),
        getProc_updProc_ne _ _ _ _ hkj]

theorem rebase_mlfq_pass (s : PTable) (m : Int) :
    (rebase s m).mlfq.pass = s.mlfq.pass - m := by
  unfold rebase
  simp only [foldl_updProc_mlfq]

theorem rebase_components (s : PTable) (m : Int) :
    (rebase s m).stride = s.stride ∧ (rebase s m).sleep = s.sleep ∧
    (rebase s m).free = s.free ∧ (rebase s m).mlfq.queue = s.mlfq.queue ∧
    (rebase s m).mlfq.pin = s.mlfq.pin ∧ (rebase s m).mlfq.ticks = s.mlfq.ticks ∧
    (rebase s m).mlfq.tickets = s.mlfq.tickets ∧
    (rebase s m).proc.length = s.proc.length := by
  unfold rebase
  refine ⟨?_, ?_, ?_, ?_, ?_, ?_, ?_, ?_⟩ <;>
    simp [foldl_updProc_mlfq, foldl_updProc_stride, foldl_updProc_sleep,
      foldl_updProc_free, foldl_updProc_length]

theorem rebase_getProc_mem (s : PTable) (m : Int) (j : Nat)
    (hnd : (s.stride.minheap ++ s.stride.run).Nodup)
    (hlen : ∀ i ∈ s.stride.minheap ++ s.stride.run, i < s.proc.length)
    (hj : j ∈ s.stride.minheap ++ s.stride.run) :
    getProc (rebase s m) j = subPass m (getProc s j) := by
  have hndh : s.stride.minheap.Nodup := (List.nodup_append.mp hnd).1
  have hndr : s.stride.run.Nodup := (List.nodup_append.mp hnd).2.1
  have hdisj := (List.nodup_append.mp hnd).2.2
  have key : getProc (rebase s m) j =
      getProc (List.foldl (fun st i => updProc st i (subPass m))
        (List.foldl (fun st i => updProc st i (subPass m)) s s.stride.minheap)
        ((List.foldl (fun st i => updProc st i (subPass m)) s s.stride.minheap).stride.run)) j :=
    rfl
  rw [key, foldl_updProc_stride]
  rcases List.mem_append.mp hj with hjh | hjr2
  · have hnr : j ∉ s.stride.run := fun hr => hdisj hjh hr
    rw [foldl_updProc_notMem _ _ _ j hnr]
    exact foldl_updProc_mem _ _ s j hndh hjh (hlen j hj)
  · have hnh : j ∉ s.stride.minheap := fun hh => hdisj hh hjr2
    rw [foldl_updProc_mem _ _ _ j hndr hjr2
        (by rw [foldl_updProc_length]; exact hlen j hj),
      foldl_updProc_notMem _ _ _ j hnh]

theorem rebase_getProc_notMem (s : PTable) (m : Int) (j : Nat)
    (hjh : j ∉ s.stride.minheap) (hjr : j ∉ s.stride.run) :
    getProc (rebase s m) j = getProc s j := by
  have key : getProc (rebase s m) j =
      getProc (List.foldl (fun st i => updProc st i (subPass m))
        (List.foldl (fun st i => updProc st i (subPass m)) s s.stride.minheap)
        ((List.foldl (fun st i => updProc st i (subPass m)) s s.stride.minheap).stride.run)) j :=
    rfl
  rw [key, foldl_updProc_stride]
  rw [foldl_updProc_notMem _ _ _ j hjr, foldl_updProc_notMem _ _ _ j hjh]

/-- C6 counterexample: the claim "immediately after the subtraction
every pass value (mlfq.pass and all stride passes) is at least 0 and at
most BARRIER" fails at `cs6`: the departing stride runner (slot 0,
already popped from the heap and unlinked from the run list) is a live
STRIDE process, triggers the rebase with `minpass = 501 > BARRIER =
500`, but its own pass is not rebased and stays above BARRIER. -/
theorem rebase_cex :
    cpr.BARRIER < minpassOf cs6 (some 0) ∧
    (getProc cs6 0).type = .STRIDE ∧ (getProc cs6 0).state = .RUNNABLE ∧
    (getProc (rebase cs6 (minpassOf cs6 (some 0))) 1).pass = 1 ∧
    (rebase cs6 (minpassOf cs6 (some 0))).mlfq.pass = 2 ∧
    ¬ ((getProc (rebase cs6 (minpassOf cs6 (some 0))) 0).pass ≤ cpr.BARRIER) := by
  decide

/-- C6 (amended): whenever `minpass > BARRIER`, the rebase block of
`stridelogic` subtracts `minpass` from `mlfq.pass` and from the pass of
every stride process in the heap and on the run list, and touches
nothing else; the rebased values land in `[0, BARRIER]` provided
`minpass` was a lower bound of them and each was at most
`minpass + BARRIER`; the pass of a departing stride process that is in
neither the heap nor the run list is not adjusted (and when it itself
supplied `minpass`, it stays above BARRIER). -/
theorem rebase_spec_amended (pr : Params) (s : PTable) (po : Option Nat)
    (hnd : (s.stride.minheap ++ s.stride.run).Nodup)
    (hlen : ∀ j ∈ s.stride.minheap ++ s.stride.run, j < s.proc.length)
    (hgt : pr.BARRIER < minpassOf s po) :
    (∀ j ∈ s.stride.minheap ++ s.stride.run,
      getProc (rebase s (minpassOf s po)) j = subPass (minpassOf s po) (getProc s j)) ∧
    (rebase s (minpassOf s po)).mlfq.pass = s.mlfq.pass - minpassOf s po ∧
    (∀ j, j ∉ s.stride.minheap → j ∉ s.stride.run →
      getProc (rebase s (minpassOf s po)) j = getProc s j) ∧
    (rebase s (minpassOf s po)).stride = s.stride ∧
    (rebase s (minpassOf s po)).mlfq.queue = s.mlfq.queue ∧
    (rebase s (minpassOf s po)).mlfq.tickets = s.mlfq.tickets ∧
    (rebase s (minpassOf s po)).sleep = s.sleep ∧
    (∀ j ∈ s.stride.minheap ++ s.stride.run,
      minpassOf s po ≤ (getProc s j).pass →
      (getProc s j).pass ≤ minpassOf s po + pr.BARRIER →
      0 ≤ (getProc (rebase s (minpassOf s po)) j).pass ∧
        (getProc (rebase s (minpassOf s po)) j).pass ≤ pr.BARRIER) ∧
    (minpassOf s po ≤ s.mlfq.pass → s.mlfq.pass ≤ minpassOf s po + pr.BARRIER →
      0 ≤ (rebase s (minpassOf s po)).mlfq.pass ∧
        (rebase s (minpassOf s po)).mlfq.pass ≤ pr.BARRIER) ∧
    (∀ i, po = some i → (getProc s i).type = .STRIDE →
      i ∉ s.stride.minheap → i ∉ s.stride.run →
      (getProc (rebase s (minpassOf s po)) i).pass = minpassOf s po ∧
        pr.BARRIER < (getProc (rebase s (minpassOf s po)) i).pass) := by
  obtain ⟨hstr, hsl, hfr, hqu, hpin, htk, htick, hln⟩ := rebase_components s (minpassOf s po)
  refine ⟨fun j hj => rebase_getProc_mem s _ j hnd hlen hj,
    rebase_mlfq_pass s _,
    fun j h1 h2 => rebase_getProc_notMem s _ j h1 h2,
    hstr, hqu, htick, hsl, ?_, ?_, ?_⟩
  · intro j hj hlb hub
    rw [rebase_getProc_mem s _ j hnd hlen hj]
    simp only [subPass]
    omega
  · intro hlb hub
    rw [rebase_mlfq_pass]
    omega
  · rintro i rfl hty h1 h2
    rw [rebase_getProc_notMem s _ i h1 h2]
    simp only [minpassOf] at hgt ⊢
    rw [if_neg (by simp [hty])] at hgt ⊢
    exact ⟨rfl, hgt⟩

/-- Witness for the amended C6 theorem at `cw6` (heap entry 1 and
run-list entry 0, rebase triggered by the MLFQ pass 501). -/
theorem rebase_spec_amended_witness :
    (∀ j ∈ cw6.stride.minheap ++ cw6.stride.run,
      getProc (rebase cw6 (minpassOf cw6 none)) j = subPass (minpassOf cw6 none) (getProc cw6 j)) ∧
    (rebase cw6 (minpassOf cw6 none)).mlfq.pass = cw6.mlfq.pass - minpassOf cw6 none := by
  have h := rebase_spec_amended cpr cw6 none (by decide) (by decide) (by decide)
  exact ⟨h.1, h.2.1⟩

/-! ## C4: wake-up transitions of `wakeup1` and `kill` -/

theorem siftup_length (f : Nat → Int) (p : Nat) : ∀ (hp : List Nat) (i : Nat),
    (siftup f p hp i).length = hp.length := by
  intro hp i
  induction i using Nat.strong_induction_on generalizing hp with
  | _ i ih =>
    rw [siftup]
    split
    · rw [ih (i / 2) (Nat.div_lt_self (by omega) (by omega))]
      simp [hset]
    · simp [hset]

theorem pushheapL_length (f : Nat → Int) (hp : List Nat) (p : Nat) :
    (pushheapL f hp p).length = hp.length + 1 := by
  unfold pushheapL
  rw [siftup_length]
  simp

theorem wakeProc_stride (c : Nat) (s : PTable) (j : Nat) :
    (wakeProc c s j).stride = s.stride := by
  unfold wakeProc
  split_ifs with h1
  · simp only [apply_ite (fun t : PTable => t.stride), setQueueAt_stride,
      updProc_stride, ite_self, enqueue]
  · rfl

theorem wakeup1_stride (s : PTable) (c : Nat) : (wakeup1 s c).stride = s.stride := by
  unfold wakeup1
  generalize s.sleep = L
  induction L generalizing s with
  | nil => rfl
  | cons k ks ih =>
    simp only [List.foldl_cons]
    rw [ih (wakeProc c s k), wakeProc_stride]

theorem wakeProc_sleep_sublist (c : Nat) (s : PTable) (j : Nat) :
    (wakeProc c s j).sleep.Sublist s.sleep := by
  unfold wakeProc
  split_ifs with h1
  · simp only [apply_ite (fun t : PTable => t.sleep), setQueueAt_sleep,
      updProc_sleep, ite_self, enqueue]
    exact List.erase_sublist _ _
  · exact List.Sublist.refl _

theorem foldl_wakeProc_sleep_sublist (c : Nat) (L : List Nat) : ∀ s : PTable,
    (L.foldl (wakeProc c) s).sleep.Sublist s.sleep := by
  induction L with
  | nil => intro s; exact List.Sublist.refl _
  | cons k ks ih =>
    intro s
    exact (ih (wakeProc c s k)).trans (wakeProc_sleep_sublist c s k)

theorem foldl_wakeProc_getProc_notMem (c : Nat) (L : List Nat) : ∀ (s : PTable) (j : Nat),
    j ∉ L → getProc (L.foldl (wakeProc c) s) j = getProc s j := by
  induction L with
  | nil => intro s j _; rfl
  | cons k ks ih =>
    intro s j hj
    simp only [List.mem_cons, not_or] at hj
    simp only [List.foldl_cons]
    rw [ih (wakeProc c s k) j hj.2, getProc_wakeProc_ne c s k j (Ne.symm hj.1)]

theorem wakeProc_queue_length (c : Nat) (s : PTable) (j : Nat) :
    (wakeProc c s j).mlfq.queue.length = s.mlfq.queue.length := by
  unfold wakeProc
  split_ifs with h1
  · simp only [apply_ite (fun t : PTable => t.mlfq.queue.length), enqueue,
      setQueueAt_queue_length, updProc_mlfq, ite_self]
  · rfl

theorem wakeProc_proc_length (c : Nat) (s : PTable) (j : Nat) :
    (wakeProc c s j).proc.length = s.proc.length := by
  unfold wakeProc
  split_ifs with h1
  · simp only [apply_ite (fun t : PTable => t.proc.length), enqueue]
    simp [setQueueAt, updProc, setProc]
  · rfl

theorem queueAt_enqueue_mono (t : PTable) (l l2 i j : Nat) (h : j ∈ queueAt t l) :
    j ∈ queueAt (enqueue t l2 i) l := by
  unfold enqueue setQueueAt
  by_cases hl : l2 = l
  · subst hl
    by_cases hr : l2 < t.mlfq.queue.length
    · simp only [queueAt] at h ⊢
      rw [getD_set_eq _ _ _ _ hr]
      exact List.mem_append_left _ h
    · simp only [queueAt] at h ⊢
      rw [List.set_eq_of_length_le (by omega)]
      exact h
  · simp only [queueAt] at h ⊢
    rw [getD_set_ne _ _ _ _ _ hl]
    exact h

theorem wakeProc_queue_mono (c : Nat) (s : PTable) (k l j : Nat)
    (h : j ∈ queueAt s l) : j ∈ queueAt (wakeProc c s k) l := by
  unfold wakeProc
  split_ifs with h1
  · rw [apply_ite (fun t : PTable => queueAt t l)]
    split
    · exact queueAt_enqueue_mono _ _ _ _ _ h
    · exact h
  · exact h

theorem foldl_wakeProc_queue_mono (c : Nat) (L : List Nat) : ∀ (s : PTable) (l j : Nat),
    j ∈ queueAt s l → j ∈ queueAt (L.foldl (wakeProc c) s) l := by
  induction L with
  | nil => intro s l j h; exact h
  | cons k ks ih =>
    intro s l j h
    exact ih (wakeProc c s k) l j (wakeProc_queue_mono c s k l j h)

theorem foldl_wakeProc_sleep_out (c : Nat) (L : List Nat) : ∀ (s : PTable) (j : Nat),
    j ∉ s.sleep → j ∉ (L.foldl (wakeProc c) s).sleep :=
  fun s _ h hmem => h ((foldl_wakeProc_sleep_sublist c L s).mem hmem)

theorem foldl_wakeProc_proc_length (c : Nat) (L : List Nat) : ∀ s : PTable,
    (L.foldl (wakeProc c) s).proc.length = s.proc.length := by
  induction L with
  | nil => intro s; rfl
  | cons k ks ih =>
    intro s
    rw [List.foldl_cons, ih (wakeProc c s k), wakeProc_proc_length]

theorem foldl_wakeProc_queue_length (c : Nat) (L : List Nat) : ∀ s : PTable,
    (L.foldl (wakeProc c) s).mlfq.queue.length = s.mlfq.queue.length := by
  induction L with
  | nil => intro s; rfl
  | cons k ks ih =>
    intro s
    rw [List.foldl_cons, ih (wakeProc c s k), wakeProc_queue_length]

theorem mem_enqueue_self (t : PTable) (l j : Nat) (hl : l < t.mlfq.queue.length) :
    j ∈ queueAt (enqueue t l j) l := by
  unfold enqueue setQueueAt
  simp only [queueAt]
  rw [getD_set_eq _ _ _ _ hl]
  exact List.mem_append_right _ (by simp)

theorem wakeup1_wakes (s : PTable) (c j : Nat)
    (hj : j ∈ s.sleep) (hch : (getProc s j).chan = c) (hnd : s.sleep.Nodup)
    (hlen : j < s.proc.length) :
    j ∉ (wakeup1 s c).sleep ∧
    (getProc (wakeup1 s c) j).state = .RUNNABLE ∧
    ((getProc s j).type = .MLFQ → (getProc s j).privlevel < s.mlfq.queue.length →
      j ∈ queueAt (wakeup1 s c) (getProc s j).privlevel) := by
  obtain ⟨L1, L2, hL⟩ := List.append_of_mem hj
  have hnd2 : (L1 ++ j :: L2).Nodup := hL ▸ hnd
  have hj1 : j ∉ L1 := fun h1 =>
    ((List.nodup_append.mp hnd2).2.2 h1 (List.mem_cons_self j L2)).elim
  have hj2 : j ∉ L2 := (List.nodup_cons.mp (List.nodup_append.mp hnd2).2.1).1
  set sm := L1.foldl (wakeProc c) s with hsm
  have hfold : wakeup1 s c = L2.foldl (wakeProc c) (wakeProc c sm j) := by
    unfold wakeup1
    rw [hL, List.foldl_append, List.foldl_cons]
  have hmid : getProc sm j = getProc s j := by
    rw [hsm]; exact foldl_wakeProc_getProc_notMem c L1 s j hj1
  have hmlen : j < sm.proc.length := by
    rw [hsm, foldl_wakeProc_proc_length]; exact hlen
  have hndmid : sm.sleep.Nodup := by
    rw [hsm]; exact (foldl_wakeProc_sleep_sublist c L1 s).nodup hnd
  have hqmid : sm.mlfq.queue.length = s.mlfq.queue.length := by
    rw [hsm, foldl_wakeProc_queue_length]
  have hchm : (getProc sm j).chan = c := by rw [hmid]; exact hch
  clear_value sm
  set s1 : PTable := { sm with sleep := sm.sleep.erase j } with hs1
  set s2 := updProc s1 j (fun p => { p with state := .RUNNABLE }) with hs2
  have hstep : wakeProc c sm j =
      (if (getProc s2 j).type = .MLFQ then enqueue s2 (getProc s2 j).privlevel j
       else s2) := by
    unfold wakeProc
    rw [if_pos hchm]
  have hg2 : getProc s2 j = { getProc s j with state := .RUNNABLE } := by
    rw [hs2, getProc_updProc_eq s1 j _ hmlen]
    have hg1 : getProc s1 j = getProc s j := by rw [hs1, ← hmid]; rfl
    rw [hg1]
  have hsleep2 : j ∉ s2.sleep := by
    show j ∉ sm.sleep.erase j
    exact hndmid.not_mem_erase
  have hqlen2 : s2.mlfq.queue.length = s.mlfq.queue.length := hqmid
  refine ⟨?_, ?_, ?_⟩
  · rw [hfold, hstep]
    apply foldl_wakeProc_sleep_out
    split_ifs with hty
    · exact hsleep2
    · exact hsleep2
  · rw [hfold, hstep]
    split_ifs with hty
    · rw [foldl_wakeProc_getProc_notMem c L2 _ j hj2, getProc_enqueue, hg2]
    · rw [foldl_wakeProc_getProc_notMem c L2 _ j hj2, hg2]
  · intro hMt hMl
    rw [hfold, hstep]
    have hty : (getProc s2 j).type = .MLFQ := by rw [hg2]; exact hMt
    rw [if_pos hty]
    apply foldl_wakeProc_queue_mono
    have hpl : (getProc s2 j).privlevel = (getProc s j).privlevel := by rw [hg2]
    rw [hpl]
    exact mem_enqueue_self s2 _ j (by rw [hqlen2]; exact hMl)

theorem kill_stride (s : PTable) (pid : Nat) : (kill s pid).2.stride = s.stride := by
  unfold kill
  cases hf : (List.range s.proc.length).find? (fun k => (getProc s k).pid == pid)
  · rfl
  · simp only []
    split_ifs <;> rfl

theorem kill_wakes (s : PTable) (pid j : Nat)
    (hfind : (List.range s.proc.length).find? (fun k => (getProc s k).pid == pid) = some j)
    (hst : (getProc s j).state = .SLEEPING) (hnd : s.sleep.Nodup)
    (hlen : j < s.proc.length) :
    (kill s pid).1 = 0 ∧
    (getProc (kill s pid).2 j).killed = true ∧
    j ∉ (kill s pid).2.sleep ∧
    (getProc (kill s pid).2 j).state = .RUNNABLE ∧
    ((getProc s j).type = .MLFQ → (getProc s j).privlevel < s.mlfq.queue.length →
      j ∈ queueAt (kill s pid).2 (getProc s j).privlevel) := by
  unfold kill
  rw [hfind]
  simp only []
  set s1 := updProc s j (fun p => { p with killed := true }) with hs1
  have hg1 : getProc s1 j = { getProc s j with killed := true } := by
    rw [hs1, getProc_updProc_eq _ _ _ hlen]
  rw [if_pos (by rw [hg1]; exact hst)]
  set s2 : PTable := { s1 with sleep := s1.sleep.erase j } with hs2
  set s3 := updProc s2 j (fun p => { p with state := .RUNNABLE }) with hs3
  have hlen2 : j < s2.proc.length := by
    show j < s1.proc.length
    rw [hs1]; simpa using hlen
  have hg3 : getProc s3 j =
      { getProc s j with killed := true, state := .RUNNABLE } := by
    rw [hs3, getProc_updProc_eq _ _ _ hlen2]
    have : getProc s2 j = getProc s1 j := rfl
    rw [this, hg1]
  have hsleep3 : j ∉ s3.sleep := by
    show j ∉ s1.sleep.erase j
    have hsl1 : s1.sleep = s.sleep := rfl
    rw [hsl1]
    exact hnd.not_mem_erase
  refine ⟨?_, ?_, ?_, ?_, ?_⟩
  · split_ifs <;> rfl
  · split_ifs with hty
    · rw [Prod.snd, getProc_enqueue, hg3]
    · rw [Prod.snd, hg3]
  · split_ifs with hty
    · exact hsleep3
    · exact hsleep3
  · split_ifs with hty
    · rw [Prod.snd, getProc_enqueue, hg3]
    · rw [Prod.snd, hg3]
  · intro hMt hMl
    have hty : (getProc s3 j).type = .MLFQ := by rw [hg3]; exact hMt
    rw [if_pos hty, Prod.snd]
    have hpl : (getProc s3 j).privlevel = (getProc s j).privlevel := by rw [hg3]
    rw [hpl]
    have hql : s3.mlfq.queue.length = s.mlfq.queue.length := rfl
    exact mem_enqueue_self s3 _ j (by rw [hql]; exact hMl)

/-- C4 counterexample: a sleeping STRIDE process (slot 0, channel 7,
already resident in the heap while sleeping) is woken by `wakeup1` —
it is unlinked from the sleep list and becomes RUNNABLE, but the heap
is left exactly as it was (`pushheap` always grows the heap by one
slot, see `pushheapL_length`): the process is not pushed, contradicting
the claim; likewise `kill` of the same process leaves the heap
untouched. -/
theorem wakeup_kill_stride_cex :
    (getProc csC4 0).type = .STRIDE ∧ (getProc csC4 0).state = .SLEEPING ∧
    (getProc csC4 0).chan = 7 ∧ 0 ∈ csC4.sleep ∧
    (getProc (wakeup1 csC4 7) 0).state = .RUNNABLE ∧
    (wakeup1 csC4 7).sleep = [] ∧
    (wakeup1 csC4 7).stride.minheap = csC4.stride.minheap ∧
    ¬ ((wakeup1 csC4 7).stride.minheap.length = csC4.stride.minheap.length + 1) ∧
    (kill csC4 0).2.stride.minheap = csC4.stride.minheap := by
  decide

/-- C4 (amended): when `wakeup1(chan)` matches a SLEEPING process, or
`kill(pid)` finds a SLEEPING target, the process is unlinked from the
sleep list and set RUNNABLE, and an MLFQ-typed process is enqueued at
its current privlevel; a STRIDE-typed process is NOT pushed onto the
stride min-heap — neither function ever touches the stride state (a
sleeping stride process already resides in the heap). -/
theorem wakeup_kill_transitions :
    (∀ s c, (wakeup1 s c).stride = s.stride) ∧
    (∀ s pid, (kill s pid).2.stride = s.stride) ∧
    (∀ s c j, j ∈ s.sleep → (getProc s j).chan = c → s.sleep.Nodup →
      j < s.proc.length →
      j ∉ (wakeup1 s c).sleep ∧ (getProc (wakeup1 s c) j).state = .RUNNABLE ∧
      ((getProc s j).type = .MLFQ → (getProc s j).privlevel < s.mlfq.queue.length →
        j ∈ queueAt (wakeup1 s c) (getProc s j).privlevel)) ∧
    (∀ s pid j,
      (List.range s.proc.length).find? (fun k => (getProc s k).pid == pid) = some j →
      (getProc s j).state = .SLEEPING → s.sleep.Nodup → j < s.proc.length →
      (kill s pid).1 = 0 ∧
      (getProc (kill s pid).2 j).killed = true ∧
      j ∉ (kill s pid).2.sleep ∧
      (getProc (kill s pid).2 j).state = .RUNNABLE ∧
      ((getProc s j).type = .MLFQ → (getProc s j).privlevel < s.mlfq.queue.length →
        j ∈ queueAt (kill s pid).2 (getProc s j).privlevel)) :=
  ⟨wakeup1_stride, kill_stride,
   fun s c j h1 h2 h3 h4 => wakeup1_wakes s c j h1 h2 h3 h4,
   fun s pid j h1 h2 h3 h4 => kill_wakes s pid j h1 h2 h3 h4⟩

/-- Witness for the amended C4 theorem: waking and killing the MLFQ
sleeper of `csWake`, and the heap-untouched part at `csC4`. -/
theorem wakeup_kill_transitions_witness :
    (wakeup1 csC4 7).stride = csC4.stride ∧
    (1 ∉ (wakeup1 csWake 5).sleep ∧
      (getProc (wakeup1 csWake 5) 1).state = .RUNNABLE) ∧
    ((getProc (kill csWake 1).2 1).killed = true ∧
      (getProc (kill csWake 1).2 1).state = .RUNNABLE) := by
  refine ⟨wakeup_kill_transitions.1 csC4 7, ?_, ?_⟩
  · have h := wakeup_kill_transitions.2.2.1 csWake 5 1 (by decide) (by decide)
      (by decide) (by decide)
    exact ⟨h.1, h.2.1⟩
  · have h := wakeup_kill_transitions.2.2.2 csWake 1 1 (by decide) (by decide)
      (by decide) (by decide)
    exact ⟨h.2.1, h.2.2.2.1⟩

/-! ## C7: per-tick MLFQ logic for a RUNNABLE process -/

theorem mlfqTick_ticks (pr : Params) (i : Nat) (s : PTable) :
    (mlfqTick pr i s).mlfq.ticks = s.mlfq.ticks + 1 := by
  unfold mlfqTick
  cases h : (getProc { s with mlfq := { s.mlfq with ticks := s.mlfq.ticks + 1 } } i).state <;>
    simp only [h] <;> split_ifs <;>
      simp [dequeue, enqueue, updProc, setProc, setQueueAt, setPinAt]

theorem mlfqlogic_no_boost (pr : Params) (i : Nat) (s : PTable)
    (hnb : (s.mlfq.ticks + 1) % pr.BOOSTINTERVAL ≠ 0) :
    mlfqlogic pr i s = mlfqTick pr i s := by
  unfold mlfqlogic
  rw [if_neg (by rw [mlfqTick_ticks]; exact hnb)]

/-- C7: for an MLFQ process RUNNABLE when `mlfqlogic(p)` runs (no
priority boost firing at this tick), the global tick counter and `p`'s
ticks are incremented and then: if `privlevel < QSIZE-1` and the new
ticks is a multiple of `TA(privlevel)`, `p` is dequeued, its privlevel
incremented by one, enqueued at the tail of the new level, and its
ticks reset to 0; otherwise, if the new ticks is a multiple of
`TQ(privlevel)`, the pin at `p`'s level advances to `p`'s successor
node and nothing else changes; otherwise nothing but the tick counters
changes. -/
theorem mlfqlogic_runnable_spec (pr : Params) (s : PTable) (i : Nat)
    (hst : (getProc s i).state = .RUNNABLE)
    (hlen : i < s.proc.length)
    (hql : s.mlfq.queue.length = pr.QSIZE)
    (hpl : s.mlfq.pin.length = pr.QSIZE)
    (hlev : (getProc s i).privlevel < pr.QSIZE)
    (hnb : (s.mlfq.ticks + 1) % pr.BOOSTINTERVAL ≠ 0) :
    (mlfqlogic pr i s).mlfq.ticks = s.mlfq.ticks + 1 ∧
    ((getProc s i).privlevel < pr.QSIZE - 1 ∧
        ((getProc s i).ticks + 1) % pr.TA (getProc s i).privlevel = 0 →
      getProc (mlfqlogic pr i s) i =
        { getProc s i with privlevel := (getProc s i).privlevel + 1, ticks := 0 } ∧
      queueAt (mlfqlogic pr i s) (getProc s i).privlevel
        = (queueAt s (getProc s i).privlevel).erase i ∧
      queueAt (mlfqlogic pr i s) ((getProc s i).privlevel + 1)
        = queueAt s ((getProc s i).privlevel + 1) ++ [i] ∧
      (∀ m, m ≠ (getProc s i).privlevel → m ≠ (getProc s i).privlevel + 1 →
        queueAt (mlfqlogic pr i s) m = queueAt s m) ∧
      pinAt (mlfqlogic pr i s) (getProc s i).privlevel
        = (if pinAt s (getProc s i).privlevel = some i
           then nextOf (queueAt s (getProc s i).privlevel) i
           else pinAt s (getProc s i).privlevel) ∧
      (∀ m, m ≠ (getProc s i).privlevel → pinAt (mlfqlogic pr i s) m = pinAt s m) ∧
      (∀ k, k ≠ i → getProc (mlfqlogic pr i s) k = getProc s k) ∧
      (mlfqlogic pr i s).stride = s.stride ∧ (mlfqlogic pr i s).sleep = s.sleep ∧
      (mlfqlogic pr i s).mlfq.pass = s.mlfq.pass ∧
      (mlfqlogic pr i s).mlfq.tickets = s.mlfq.tickets) ∧
    (¬((getProc s i).privlevel < pr.QSIZE - 1 ∧
        ((getProc s i).ticks + 1) % pr.TA (getProc s i).privlevel = 0) →
      ((getProc s i).ticks + 1) % pr.TQ (getProc s i).privlevel = 0 →
      getProc (mlfqlogic pr i s) i
        = { getProc s i with ticks := (getProc s i).ticks + 1 } ∧
      (mlfqlogic pr i s).mlfq.queue = s.mlfq.queue ∧
      pinAt (mlfqlogic pr i s) (getProc s i).privlevel
        = nextOf (queueAt s (getProc s i).privlevel) i ∧
      (∀ m, m ≠ (getProc s i).privlevel → pinAt (mlfqlogic pr i s) m = pinAt s m) ∧
      (∀ k, k ≠ i → getProc (mlfqlogic pr i s) k = getProc s k) ∧
      (mlfqlogic pr i s).stride = s.stride ∧ (mlfqlogic pr i s).sleep = s.sleep ∧
      (mlfqlogic pr i s).mlfq.pass = s.mlfq.pass ∧
      (mlfqlogic pr i s).mlfq.tickets = s.mlfq.tickets) ∧
    (¬((getProc s i).privlevel < pr.QSIZE - 1 ∧
        ((getProc s i).ticks + 1) % pr.TA (getProc s i).privlevel = 0) →
      ((getProc s i).ticks + 1) % pr.TQ (getProc s i).privlevel ≠ 0 →
      getProc (mlfqlogic pr i s) i
        = { getProc s i with ticks := (getProc s i).ticks + 1 } ∧
      (mlfqlogic pr i s).mlfq.queue = s.mlfq.queue ∧
      (mlfqlogic pr i s).mlfq.pin = s.mlfq.pin ∧
      (∀ k, k ≠ i → getProc (mlfqlogic pr i s) k = getProc s k) ∧
      (mlfqlogic pr i s).stride = s.stride ∧ (mlfqlogic pr i s).sleep = s.sleep ∧
      (mlfqlogic pr i s).mlfq.pass = s.mlfq.pass ∧
      (mlfqlogic pr i s).mlfq.tickets = s.mlfq.tickets) := by
  rw [mlfqlogic_no_boost pr i s hnb]
  refine ⟨mlfqTick_ticks pr i s, ?_, ?_, ?_⟩
  · rintro ⟨h1, h2⟩
    have hq1 : (getProc s i).privlevel < s.mlfq.queue.length := by omega
    have hq2 : (getProc s i).privlevel + 1 < s.mlfq.queue.length := by omega
    have hp1 : (getProc s i).privlevel < s.mlfq.pin.length := by omega
    have hres : mlfqTick pr i s =
        { proc := s.proc.set i
            { getProc s i with privlevel := (getProc s i).privlevel + 1, ticks := 0 }
        , mlfq := { queue := (s.mlfq.queue.set (getProc s i).privlevel
                      ((queueAt s (getProc s i).privlevel).erase i)).set
                      ((getProc s i).privlevel + 1)
                      (queueAt s ((getProc s i).privlevel + 1) ++ [i])
                  , pin := s.mlfq.pin.set (getProc s i).privlevel
                      (if pinAt s (getProc s i).privlevel = some i
                       then nextOf (queueAt s (getProc s i).privlevel) i
                       else pinAt s (getProc s i).privlevel)
                  , ticks := s.mlfq.ticks + 1, pass := s.mlfq.pass
                  , tickets := s.mlfq.tickets }
        , stride := s.stride, sleep := s.sleep, free := s.free } := by
      simp only [getProc, List.getD_eq_getElem?_getD, List.getElem?_eq_getElem hlen,
        Option.getD_some] at hst h1 h2
      simp [mlfqTick, hst, h1, h2, hlen, getProc, updProc, setProc, dequeue, enqueue,
        setQueueAt, setPinAt, queueAt, pinAt, List.getD_eq_getElem?_getD,
        List.getElem?_eq_getElem hlen, getD_set_eq, getD_set_ne,
        List.getElem?_set_self', List.getElem?_set_ne]
    rw [hres]
    refine ⟨?_, ?_, ?_, ?_, ?_, ?_, ?_, rfl, rfl, rfl, rfl⟩
    · show (s.proc.set i _).getD i initProc = _
      rw [getD_set_eq _ _ _ _ hlen]
    · show ((s.mlfq.queue.set _ _).set _ _).getD (getProc s i).privlevel [] = _
      rw [getD_set_ne _ _ _ _ _ (by omega),
        getD_set_eq _ _ _ _ hq1]
    · show ((s.mlfq.queue.set _ _).set _ _).getD ((getProc s i).privlevel + 1) [] = _
      rw [getD_set_eq _ _ _ _ (by simpa using hq2)]
    · intro m hm1 hm2
      show ((s.mlfq.queue.set _ _).set _ _).getD m [] = _
      rw [getD_set_ne _ _ _ _ _ (Ne.symm hm2), getD_set_ne _ _ _ _ _ (Ne.symm hm1)]
      rfl
    · show (s.mlfq.pin.set _ _).getD (getProc s i).privlevel none = _
      rw [getD_set_eq _ _ _ _ hp1]
    · intro m hm
      show (s.mlfq.pin.set _ _).getD m none = _
      rw [getD_set_ne _ _ _ _ _ (Ne.symm hm)]
      rfl
    · intro k hk
      show (s.proc.set i _).getD k initProc = _
      rw [getD_set_ne _ _ _ _ _ (Ne.symm hk)]
      rfl
  · intro h1 h2
    have hp1 : (getProc s i).privlevel < s.mlfq.pin.length := by omega
    have hres : mlfqTick pr i s =
        { proc := s.proc.set i
            { getProc s i with ticks := (getProc s i).ticks + 1 }
        , mlfq := { queue := s.mlfq.queue
                  , pin := s.mlfq.pin.set (getProc s i).privlevel
                      (nextOf (queueAt s (getProc s i).privlevel) i)
                  , ticks := s.mlfq.ticks + 1, pass := s.mlfq.pass
                  , tickets := s.mlfq.tickets }
        , stride := s.stride, sleep := s.sleep, free := s.free } := by
      simp only [getProc, List.getD_eq_getElem?_getD, List.getElem?_eq_getElem hlen,
        Option.getD_some] at hst h1 h2
      simp [mlfqTick, hst, h1, h2, hlen, getProc, updProc, setProc, dequeue, enqueue,
        setQueueAt, setPinAt, queueAt, pinAt, List.getD_eq_getElem?_getD,
        List.getElem?_eq_getElem hlen, getD_set_eq, getD_set_ne,
        List.getElem?_set_self', List.getElem?_set_ne]
    rw [hres]
    refine ⟨?_, rfl, ?_, ?_, ?_, rfl, rfl, rfl, rfl⟩
    · show (s.proc.set i _).getD i initProc = _
      rw [getD_set_eq _ _ _ _ hlen]
    · show (s.mlfq.pin.set _ _).getD (getProc s i).privlevel none = _
      rw [getD_set_eq _ _ _ _ hp1]
    · intro m hm
      show (s.mlfq.pin.set _ _).getD m none = _
      rw [getD_set_ne _ _ _ _ _ (Ne.symm hm)]
      rfl
    · intro k hk
      show (s.proc.set i _).getD k initProc = _
      rw [getD_set_ne _ _ _ _ _ (Ne.symm hk)]
      rfl
  · intro h1 h2
    have hres : mlfqTick pr i s =
        { proc := s.proc.set i
            { getProc s i with ticks := (getProc s i).ticks + 1 }
        , mlfq := { queue := s.mlfq.queue, pin := s.mlfq.pin
                  , ticks := s.mlfq.ticks + 1, pass := s.mlfq.pass
                  , tickets := s.mlfq.tickets }
        , stride := s.stride, sleep := s.sleep, free := s.free } := by
      simp only [getProc, List.getD_eq_getElem?_getD, List.getElem?_eq_getElem hlen,
        Option.getD_some] at hst h1 h2
      simp [mlfqTick, hst, h1, h2, hlen, getProc, updProc, setProc, dequeue, enqueue,
        setQueueAt, setPinAt, queueAt, pinAt, List.getD_eq_getElem?_getD,
        List.getElem?_eq_getElem hlen, getD_set_eq, getD_set_ne,
        List.getElem?_set_self', List.getElem?_set_ne]
    rw [hres]
    refine ⟨?_, rfl, rfl, ?_, rfl, rfl, rfl, rfl⟩
    · show (s.proc.set i _).getD i initProc = _
      rw [getD_set_eq _ _ _ _ hlen]
    · intro k hk
      show (s.proc.set i _).getD k initProc = _
      rw [getD_set_ne _ _ _ _ _ (Ne.symm hk)]
      rfl

/-- Witness for C7: a demotion (level 0, ticks hitting TA = 20) and a
rotation (ticks hitting TQ = 5) at concrete states. -/
theorem mlfqlogic_runnable_spec_witness :
    getProc (mlfqlogic cpr 0 csDemote) 0 =
      { getProc csDemote 0 with privlevel := (getProc csDemote 0).privlevel + 1, ticks := 0 } ∧
    queueAt (mlfqlogic cpr 0 csDemote) 1 = queueAt csDemote 1 ++ [0] ∧
    pinAt (mlfqlogic cpr 0 csRotate) 0 = nextOf (queueAt csRotate 0) 0 :=
  ⟨((mlfqlogic_runnable_spec cpr csDemote 0 (by decide) (by decide) (by decide)
      (by decide) (by decide) (by decide)).2.1 (by decide)).1,
   ((mlfqlogic_runnable_spec cpr csDemote 0 (by decide) (by decide) (by decide)
      (by decide) (by decide) (by decide)).2.1 (by decide)).2.2.1,
   ((mlfqlogic_runnable_spec cpr csRotate 0 (by decide) (by decide) (by decide)
      (by decide) (by decide) (by decide)).2.2.1 (by decide) (by decide)).2.2.1⟩

/-! ## C8: `mlfqselect` -/

theorem findRunnable_eq_none (s : PTable) : ∀ L : List Nat,
    findRunnable s L = none ↔ ∀ x ∈ L, (getProc s x).state ≠ .RUNNABLE := by
  intro L
  induction L with
  | nil => simp [findRunnable]
  | cons a L ih =>
    unfold findRunnable
    split_ifs with h
    · simp [h]
    · simp [ih, h]

theorem findRunnable_eq_some (s : PTable) : ∀ (L : List Nat) (i : Nat),
    findRunnable s L = some i →
    (getProc s i).state = .RUNNABLE ∧ i ∈ L ∧
    ∃ L1 L2, L = L1 ++ i :: L2 ∧ ∀ k ∈ L1, (getProc s k).state ≠ .RUNNABLE := by
  intro L
  induction L with
  | nil => intro i h; simp [findRunnable] at h
  | cons a L ih =>
    intro i h
    unfold findRunnable at h
    split_ifs at h with ha
    · obtain rfl : a = i := by simpa using h
      exact ⟨ha, by simp, [], L, rfl, by simp⟩
    · obtain ⟨h1, h2, L1, L2, hL, hnr⟩ := ih i h
      refine ⟨h1, by simp [h2], a :: L1, L2, by simp [hL], ?_⟩
      intro k hk
      rcases List.mem_cons.mp hk with rfl | hk2
      · exact ha
      · exact hnr k hk2

theorem rotation_perm (q : List Nat) (pin : Option Nat) :
    (rotation q pin).Perm q := by
  cases pin with
  | none => exact List.Perm.refl q
  | some x =>
    unfold rotation
    calc (q.drop _ ++ q.take _).Perm (q.take _ ++ q.drop _) := List.perm_append_comm
    _ = q := List.take_append_drop _ q

theorem mlfqselectGo_none (s : PTable) : ∀ L : List Nat,
    (mlfqselectGo s L).1 = none →
    (mlfqselectGo s L).2 = s ∧
    ∀ l ∈ L, ∀ x ∈ rotation (queueAt s l) (pinAt s l),
      (getProc s x).state ≠ .RUNNABLE := by
  intro L
  induction L with
  | nil => intro _; exact ⟨rfl, by simp⟩
  | cons a L ih =>
    intro h
    unfold mlfqselectGo at h ⊢
    cases hf : findRunnable s (rotation (queueAt s a) (pinAt s a)) with
    | some j => rw [hf] at h; simp at h
    | none =>
      rw [hf] at h
      obtain ⟨h1, h2⟩ := ih h
      refine ⟨h1, ?_⟩
      intro l hl
      rcases List.mem_cons.mp hl with rfl | hl2
      · exact (findRunnable_eq_none s _).mp hf
      · exact h2 l hl2

theorem mlfqselectGo_some (s : PTable) : ∀ (L : List Nat) (i : Nat),
    (mlfqselectGo s L).1 = some i →
    ∃ L1 l L2, L = L1 ++ l :: L2 ∧
      (∀ l2 ∈ L1, ∀ x ∈ rotation (queueAt s l2) (pinAt s l2),
        (getProc s x).state ≠ .RUNNABLE) ∧
      findRunnable s (rotation (queueAt s l) (pinAt s l)) = some i ∧
      (mlfqselectGo s L).2 = setPinAt s l (some i) := by
  intro L
  induction L with
  | nil => intro i h; simp [mlfqselectGo] at h
  | cons a L ih =>
    intro i h
    unfold mlfqselectGo at h ⊢
    cases hf : findRunnable s (rotation (queueAt s a) (pinAt s a)) with
    | some j =>
      rw [hf] at h
      obtain rfl : j = i := by simpa using h
      exact ⟨[], a, L, rfl, by simp, hf, rfl⟩
    | none =>
      rw [hf] at h
      obtain ⟨L1, l, L2, hL, hnr, hfind, hres⟩ := ih i h
      refine ⟨a :: L1, l, L2, by simp [hL], ?_, hfind, hres⟩
      intro l2 hl2
      rcases List.mem_cons.mp hl2 with rfl | hl3
      · exact (findRunnable_eq_none s _).mp hf
      · exact hnr l2 hl3

/-- C8: `mlfqselect` scans levels `0 .. QSIZE-1` in increasing order;
at each level it walks the circular queue exactly once starting from
the pin (the rotated visit order is a permutation of the queue), and
the first node holding a RUNNABLE process is returned with that
level's pin set to it (no other state is touched); if no level holds a
RUNNABLE process, it returns none and the state, pins included, is
unchanged. -/
theorem mlfqselect_spec (pr : Params) (s : PTable)
    (hpl : s.mlfq.pin.length = pr.QSIZE) :
    (∀ l, (rotation (queueAt s l) (pinAt s l)).Perm (queueAt s l)) ∧
    ((mlfqselect pr s).1 = none →
      (mlfqselect pr s).2 = s ∧
      ∀ l < pr.QSIZE, ∀ x ∈ queueAt s l, (getProc s x).state ≠ .RUNNABLE) ∧
    (∀ i, (mlfqselect pr s).1 = some i →
      ∃ l, l < pr.QSIZE ∧
        (getProc s i).state = .RUNNABLE ∧ i ∈ queueAt s l ∧
        (∀ l2, l2 < l → ∀ x ∈ queueAt s l2, (getProc s x).state ≠ .RUNNABLE) ∧
        (∃ L1 L2, rotation (queueAt s l) (pinAt s l) = L1 ++ i :: L2 ∧
          ∀ k ∈ L1, (getProc s k).state ≠ .RUNNABLE) ∧
        (mlfqselect pr s).2 = setPinAt s l (some i) ∧
        pinAt (mlfqselect pr s).2 l = some i ∧
        (∀ m, m ≠ l → pinAt (mlfqselect pr s).2 m = pinAt s m) ∧
        (mlfqselect pr s).2.proc = s.proc ∧
        (mlfqselect pr s).2.mlfq.queue = s.mlfq.queue ∧
        (mlfqselect pr s).2.stride = s.stride ∧
        (mlfqselect pr s).2.sleep = s.sleep) := by
  refine ⟨fun l => rotation_perm _ _, ?_, ?_⟩
  · intro h
    obtain ⟨h1, h2⟩ := mlfqselectGo_none s (List.range pr.QSIZE) h
    refine ⟨h1, ?_⟩
    intro l hl x hx
    exact h2 l (List.mem_range.mpr hl) x ((rotation_perm _ _).mem_iff.mpr hx)
  · intro i h
    obtain ⟨L1, l, L2, hL, hnr, hfind, hres⟩ :=
      mlfqselectGo_some s (List.range pr.QSIZE) i h
    obtain ⟨hRst, hRmem, _⟩ := findRunnable_eq_some s _ i hfind
    have hlQ : l < pr.QSIZE := by
      have : l ∈ List.range pr.QSIZE := hL ▸ List.mem_append_right L1 (List.mem_cons_self l L2)
      exact List.mem_range.mp this
    have hlt : L1.length < pr.QSIZE := by
      have hlen := congrArg List.length hL
      simp at hlen
      omega
    have h2 : l = L1.length := by
      have h3 : (List.range pr.QSIZE)[L1.length]? = some L1.length := by
        simp [List.getElem?_range, hlt]
      rw [hL, List.getElem?_append_right (le_refl L1.length)] at h3
      simp at h3
      exact h3
    have hL1 : L1 = List.range l := by
      have h1 : L1 = (List.range pr.QSIZE).take L1.length := by
        rw [hL, List.take_left]
      rw [h1, List.take_range, h2]
      congr 1
      omega
    have hres2 : (mlfqselect pr s).2 = setPinAt s l (some i) := hres
    refine ⟨l, hlQ, hRst, (rotation_perm _ _).mem_iff.mp hRmem, ?_, ?_, hres2, ?_, ?_, ?_, ?_, ?_, ?_⟩
    · intro l2 hl2 x hx
      have hmem : l2 ∈ L1 := by rw [hL1]; exact List.mem_range.mpr hl2
      exact hnr l2 hmem x ((rotation_perm _ _).mem_iff.mpr hx)
    · obtain ⟨_, _, L3, L4, hsplit, hnr2⟩ := findRunnable_eq_some s _ i hfind
      exact ⟨L3, L4, hsplit, hnr2⟩
    · rw [hres2]
      exact pinAt_setPinAt_eq s l _ (by omega)
    · intro m hm
      rw [hres2]
      exact pinAt_setPinAt_ne s l m _ (Ne.symm hm)
    · rw [hres2]; rfl
    · rw [hres2]; rfl
    · rw [hres2]; rfl
    · rw [hres2]; rfl

/-- Witness for C8: at `csRotate` the walk order is a permutation of
the queue and the selection finds the RUNNABLE process 0. -/
theorem mlfqselect_spec_witness :
    (rotation (queueAt csRotate 0) (pinAt csRotate 0)).Perm (queueAt csRotate 0) ∧
    (∃ l, l < cpr.QSIZE ∧ (getProc csRotate 0).state = PState.RUNNABLE ∧
      0 ∈ queueAt csRotate l) := by
  have h := mlfqselect_spec cpr csRotate (by decide)
  refine ⟨h.1 0, ?_⟩
  obtain ⟨l, h1, h2, h3, _⟩ := h.2.2 0 (by decide)
  exact ⟨l, h1, h2, h3⟩

/-! ## C9: pin validity -/

theorem nextOf_mem_erase (q : List Nat) (i j : Nat) (hnd : q.Nodup) (hi : i ∈ q)
    (h : nextOf q i = some j) : j ∈ q.erase i := by
  have hklt : q.findIdx (fun x => x == i) < q.length :=
    List.findIdx_lt_length_of_exists ⟨i, hi, by simp⟩
  have hqk : q[q.findIdx (fun x => x == i)] = i := by
    have h2 := @List.findIdx_getElem _ (fun x => x == i) q hklt
    simpa using h2
  simp only [nextOf] at h
  split_ifs at h with hlt
  have hj : j = q[q.findIdx (fun x => x == i) + 1] := by
    simp [List.getD_eq_getElem?_getD, List.getElem?_eq_getElem hlt] at h
    exact h.symm
  have hji : j ≠ i := by
    intro hEq
    have hEq2 : q[q.findIdx (fun x => x == i) + 1]
        = q[q.findIdx (fun x => x == i)] := by
      rw [← hj, hEq, hqk]
    have := (List.Nodup.getElem_inj_iff hnd).mp hEq2
    omega
  exact (List.mem_erase_of_ne hji).mpr (hj ▸ List.getElem_mem hlt)

theorem dequeue_pinAt_self (s : PTable) (i : Nat)
    (hp : (getProc s i).privlevel < s.mlfq.pin.length) :
    pinAt (dequeue s i) (getProc s i).privlevel =
      (if pinAt s (getProc s i).privlevel = some i
       then nextOf (queueAt s (getProc s i).privlevel) i
       else pinAt s (getProc s i).privlevel) := by
  simp only [dequeue]
  rw [pinAt_setQueueAt, pinAt_setPinAt_eq _ _ _ hp]

theorem dequeue_pinAt_other (s : PTable) (i l : Nat)
    (hll : (getProc s i).privlevel ≠ l) :
    pinAt (dequeue s i) l = pinAt s l := by
  simp only [dequeue]
  rw [pinAt_setQueueAt, pinAt_setPinAt_ne _ _ _ _ hll]

theorem dequeue_queueAt_self (s : PTable) (i : Nat)
    (hq : (getProc s i).privlevel < s.mlfq.queue.length) :
    queueAt (dequeue s i) (getProc s i).privlevel =
      (queueAt s (getProc s i).privlevel).erase i := by
  simp only [dequeue]
  rw [queueAt_setQueueAt_eq _ _ _ (by simpa using hq)]

theorem dequeue_queueAt_other (s : PTable) (i l : Nat)
    (hll : (getProc s i).privlevel ≠ l) :
    queueAt (dequeue s i) l = queueAt s l := by
  simp only [dequeue]
  rw [queueAt_setQueueAt_ne _ _ _ _ hll, queueAt_setPinAt]

theorem dequeue_pin_length (s : PTable) (i : Nat) :
    (dequeue s i).mlfq.pin.length = s.mlfq.pin.length := by
  simp [dequeue]

theorem pinInv_enqueue (s : PTable) (level i : Nat) (h : PinInv s) :
    PinInv (enqueue s level i) := by
  intro l hl j hpin
  have hl2 : l < s.mlfq.pin.length := by
    simpa [enqueue] using hl
  have hpin2 : pinAt s l = some j := hpin
  exact queueAt_enqueue_mono s l level i j (h l hl2 j hpin2)

theorem pinInv_dequeue (s : PTable) (i : Nat) (h : PinInv s)
    (hnd : (queueAt s (getProc s i).privlevel).Nodup)
    (hq : (getProc s i).privlevel < s.mlfq.queue.length)
    (hp : (getProc s i).privlevel < s.mlfq.pin.length) :
    PinInv (dequeue s i) := by
  intro l hl j hpin
  have hl2 : l < s.mlfq.pin.length := by
    rw [dequeue_pin_length] at hl
    exact hl
  by_cases hll : (getProc s i).privlevel = l
  · rw [← hll] at hpin ⊢
    rw [dequeue_pinAt_self s i hp] at hpin
    rw [dequeue_queueAt_self s i hq]
    split_ifs at hpin with hpi
    · exact nextOf_mem_erase _ i j hnd (h _ hp i hpi) hpin
    · have hji : j ≠ i := by
        intro hEq
        rw [hEq] at hpin
        exact hpi hpin
      exact (List.mem_erase_of_ne hji).mpr (h _ hp j hpin)
  · rw [dequeue_pinAt_other s i l hll] at hpin
    rw [dequeue_queueAt_other s i l hll]
    exact h l hl2 j hpin

theorem concatqueue_parts (s : PTable) (src dst : Nat) (hne : src ≠ dst)
    (hsq : src < s.mlfq.queue.length) (hsp : src < s.mlfq.pin.length)
    (hdq : dst < s.mlfq.queue.length) (hdp : dst < s.mlfq.pin.length) :
    pinAt (concatqueue s src dst) dst =
      (if queueAt s dst = [] ∧ pinAt s src ≠ none then pinAt s src else pinAt s dst) ∧
    pinAt (concatqueue s src dst) src = none ∧
    (∀ l, l ≠ src → l ≠ dst → pinAt (concatqueue s src dst) l = pinAt s l) ∧
    queueAt (concatqueue s src dst) dst = queueAt s dst ++ queueAt s src ∧
    queueAt (concatqueue s src dst) src = [] ∧
    (∀ l, l ≠ src → l ≠ dst → queueAt (concatqueue s src dst) l = queueAt s l) := by
  refine ⟨?_, ?_, ?_, ?_, ?_, ?_⟩
  · simp only [concatqueue]
    rw [pinAt_setQueueAt, pinAt_setQueueAt,
      pinAt_setPinAt_eq _ _ _ (by simpa using hdp)]
  · simp only [concatqueue]
    rw [pinAt_setQueueAt, pinAt_setQueueAt,
      pinAt_setPinAt_ne _ _ _ _ (Ne.symm hne), pinAt_setPinAt_eq _ _ _ hsp]
  · intro l h1 h2
    simp only [concatqueue]
    rw [pinAt_setQueueAt, pinAt_setQueueAt,
      pinAt_setPinAt_ne _ _ _ _ (Ne.symm h2), pinAt_setPinAt_ne _ _ _ _ (Ne.symm h1)]
  · simp only [concatqueue]
    rw [queueAt_setQueueAt_ne _ _ _ _ hne,
      queueAt_setQueueAt_eq _ _ _ (by simpa using hdq)]
  · simp only [concatqueue]
    rw [queueAt_setQueueAt_eq _ _ _ (by simpa using hsq)]
  · intro l h1 h2
    simp only [concatqueue]
    rw [queueAt_setQueueAt_ne _ _ _ _ (Ne.symm h1),
      queueAt_setQueueAt_ne _ _ _ _ (Ne.symm h2)]
    rfl

theorem pinInv_concatqueue (s : PTable) (src dst : Nat) (h : PinInv s)
    (hne : src ≠ dst)
    (hsq : src < s.mlfq.queue.length) (hsp : src < s.mlfq.pin.length)
    (hdq : dst < s.mlfq.queue.length) (hdp : dst < s.mlfq.pin.length) :
    PinInv (concatqueue s src dst) := by
  obtain ⟨hc1, hc2, hc3, hc4, hc5, hc6⟩ := concatqueue_parts s src dst hne hsq hsp hdq hdp
  intro l hl j hpin
  have hl2 : l < s.mlfq.pin.length := by
    simpa [concatqueue] using hl
  by_cases hld : l = dst
  · subst hld
    rw [hc1] at hpin
    rw [hc4]
    split_ifs at hpin with hcond
    · exact List.mem_append_right _ (h src hsp j hpin)
    · exact List.mem_append_left _ (h l hl2 j hpin)
  · by_cases hls : l = src
    · subst hls
      rw [hc2] at hpin
      exact absurd hpin (by simp)
    · rw [hc3 l hls hld] at hpin
      rw [hc6 l hls hld]
      exact h l hl2 j hpin

theorem pinInv_mlfqselect (pr : Params) (s : PTable) (h : PinInv s)
    (hpl : s.mlfq.pin.length = pr.QSIZE) :
    PinInv (mlfqselect pr s).2 := by
  cases hr : (mlfqselect pr s).1 with
  | none =>
    obtain ⟨h1, _⟩ := mlfqselectGo_none s (List.range pr.QSIZE) hr
    have h2 : (mlfqselect pr s).2 = s := h1
    rw [h2]
    exact h
  | some i =>
    obtain ⟨L1, l, L2, hL, _, hfind, hres⟩ :=
      mlfqselectGo_some s (List.range pr.QSIZE) i hr
    have hlQ : l < pr.QSIZE := by
      have hmem : l ∈ List.range pr.QSIZE :=
        hL ▸ List.mem_append_right L1 (List.mem_cons_self l L2)
      exact List.mem_range.mp hmem
    obtain ⟨_, hRmem, _⟩ := findRunnable_eq_some s _ i hfind
    have hiq : i ∈ queueAt s l := (rotation_perm _ _).mem_iff.mp hRmem
    have hres2 : (mlfqselect pr s).2 = setPinAt s l (some i) := hres
    rw [hres2]
    intro m hm j hpin
    have hm2 : m < s.mlfq.pin.length := by simpa using hm
    by_cases hml : m = l
    · subst hml
      rw [pinAt_setPinAt_eq _ _ _ (by omega)] at hpin
      obtain rfl : i = j := by simpa using hpin
      exact hiq
    · rw [pinAt_setPinAt_ne _ _ _ _ (Ne.symm hml)] at hpin
      exact h m hm2 j hpin

/-- C9: pin validity — each pin rests on its level's sentinel or a
node currently in that level's queue — is preserved by `enqueue`, by
`dequeue` (which advances the pin to the removed node's successor when
the pin rests on it), by `concatqueue` (which transfers or resets the
source and destination pins), and by `mlfqselect`. -/
theorem pin_validity_preserved :
    (∀ s level i, PinInv s → PinInv (enqueue s level i)) ∧
    (∀ s i, PinInv s → (queueAt s (getProc s i).privlevel).Nodup →
      (getProc s i).privlevel < s.mlfq.queue.length →
      (getProc s i).privlevel < s.mlfq.pin.length →
      PinInv (dequeue s i)) ∧
    (∀ s src dst, PinInv s → src ≠ dst →
      src < s.mlfq.queue.length → src < s.mlfq.pin.length →
      dst < s.mlfq.queue.length → dst < s.mlfq.pin.length →
      PinInv (concatqueue s src dst)) ∧
    (∀ pr s, PinInv s → s.mlfq.pin.length = pr.QSIZE →
      PinInv (mlfqselect pr s).2) :=
  ⟨fun s level i h => pinInv_enqueue s level i h,
   fun s i h h1 h2 h3 => pinInv_dequeue s i h h1 h2 h3,
   fun s src dst h h1 h2 h3 h4 h5 => pinInv_concatqueue s src dst h h1 h2 h3 h4 h5,
   fun pr s h h1 => pinInv_mlfqselect pr s h h1⟩

/-- Witness for C9: the four preservations applied at `csRotate`. -/
theorem pin_validity_preserved_witness :
    PinInv (enqueue csRotate 0 2) ∧
    PinInv (dequeue csRotate 0) ∧
    PinInv (concatqueue csRotate 1 0) ∧
    PinInv (mlfqselect cpr csRotate).2 :=
  ⟨pin_validity_preserved.1 csRotate 0 2 (by decide),
   pin_validity_preserved.2.1 csRotate 0 (by decide) (by decide) (by decide) (by decide),
   pin_validity_preserved.2.2.1 csRotate 1 0 (by decide) (by decide) (by decide)
     (by decide) (by decide) (by decide),
   pin_validity_preserved.2.2.2 cpr csRotate (by decide) (by decide)⟩

/-! ## C5: the binary min-heap -/

theorem length_hset (hp : List Nat) (i v : Nat) : (hset hp i v).length = hp.length := by
  simp [hset]

theorem hget_hset_eq (hp : List Nat) (i v : Nat) (h1 : 1 ≤ i) (h2 : i ≤ hp.length) :
    hget (hset hp i v) i = v := by
  unfold hget hset
  exact getD_set_eq _ _ _ _ (by omega)

theorem hget_hset_ne (hp : List Nat) (i j v : Nat) (h1 : 1 ≤ i) (h2 : 1 ≤ j) (hne : i ≠ j) :
    hget (hset hp i v) j = hget hp j := by
  unfold hget hset
  exact getD_set_ne _ _ _ _ _ (by omega)

theorem hget_append (hp : List Nat) (p k : Nat) (h1 : 1 ≤ k) (h2 : k ≤ hp.length) :
    hget (hp ++ [p]) k = hget hp k := by
  unfold hget
  exact getD_append_left _ _ _ _ (by omega)

theorem hget_dropLast (hp : List Nat) (k : Nat) (h1 : 1 ≤ k) (h2 : k ≤ hp.length - 1) :
    hget hp.dropLast k = hget hp k := by
  unfold hget
  rw [List.dropLast_eq_take, List.getD_eq_getElem?_getD, List.getD_eq_getElem?_getD,
    List.getElem?_take]
  rw [if_pos (by omega)]

theorem siftup_isHeap (f : Nat → Int) (p : Nat) : ∀ (i : Nat) (hp : List Nat),
    1 ≤ i → i ≤ hp.length →
    (∀ j, 2 ≤ j → j ≤ hp.length → j ≠ i → f (hget hp (j / 2)) ≤ f (hget hp j)) →
    (2 ≤ i → ∀ j, j ≤ hp.length → j / 2 = i → f (hget hp (i / 2)) ≤ f (hget hp j)) →
    (∀ j, j ≤ hp.length → j / 2 = i → f p ≤ f (hget hp j)) →
    IsHeap f (siftup f p hp i) := by
  intro i
  induction i using Nat.strong_induction_on with
  | _ i ih =>
    intro hp h1 h2 hA hB hC
    rw [siftup]
    split_ifs with hcond
    · obtain ⟨hi2, hlt⟩ := hcond
      apply ih (i / 2) (Nat.div_lt_self (by omega) (by omega))
      · omega
      · rw [length_hset]; omega
      · -- (A) for the swapped array, hole at i/2
        intro j hj2 hjlen hjne
        rw [length_hset] at hjlen
        by_cases hji : j = i
        · subst hji
          rw [hget_hset_eq _ _ _ (by omega) h2,
            hget_hset_ne _ _ _ _ (by omega) (by omega) (by omega)]
        · rw [hget_hset_ne _ _ _ _ (by omega) (by omega) (Ne.symm hji)]
          by_cases hjp : j / 2 = i
          · rw [hjp, hget_hset_eq _ _ _ (by omega) h2]
            exact hB (by omega) j hjlen hjp
          · rw [hget_hset_ne _ _ _ _ (by omega) (by omega) (by omega)]
            exact hA j hj2 hjlen hji
      · -- (B) for the swapped array
        intro hi4 j hjlen hjp
        rw [length_hset] at hjlen
        have hij2 : i ≠ i / 2 / 2 := by omega
        rw [hget_hset_ne _ _ _ _ (by omega) (by omega) hij2]
        by_cases hji : j = i
        · rw [hji, hget_hset_eq _ _ _ (by omega) h2]
          exact hA (i / 2) (by omega) (by omega) (by omega)
        · rw [hget_hset_ne _ _ _ _ (by omega) (by omega) (Ne.symm hji)]
          calc f (hget hp (i / 2 / 2)) ≤ f (hget hp (i / 2)) :=
                hA (i / 2) (by omega) (by omega) (by omega)
            _ ≤ f (hget hp j) := by
                have := hA j (by omega) hjlen hji
                rw [hjp] at this
                exact this
      · -- (C) for the swapped array
        intro j hjlen hjp
        rw [length_hset] at hjlen
        by_cases hji : j = i
        · subst hji
          rw [hget_hset_eq _ _ _ (by omega) h2]
          exact le_of_lt hlt
        · rw [hget_hset_ne _ _ _ _ (by omega) (by omega) (Ne.symm hji)]
          have h3 := hA j (by omega) hjlen hji
          rw [hjp] at h3
          exact le_trans (le_of_lt hlt) h3
    · -- loop exit: store p at i
      intro j hjlen1 hj2
      rw [length_hset] at hjlen1
      have hjlen : j ≤ hp.length := by omega
      by_cases hji : j = i
      · subst hji
        rw [hget_hset_eq _ _ _ h1 h2,
          hget_hset_ne _ _ _ _ (by omega) (by omega) (by omega)]
        have hle : f (hget hp (j / 2)) ≤ f p := by
          rcases not_and_or.mp hcond with hc | hc
          · omega
          · exact not_lt.mp hc
        exact hle
      · by_cases hjp : j / 2 = i
        · rw [hget_hset_ne _ _ _ _ (by omega) (by omega) (Ne.symm hji), hjp,
            hget_hset_eq _ _ _ h1 h2]
          exact hC j hjlen hjp
        · rw [hget_hset_ne _ _ _ _ (by omega) (by omega) (Ne.symm hji),
            hget_hset_ne _ _ _ _ (by omega) (by omega) (by omega)]
          exact hA j hj2 hjlen hji

theorem pushheapL_isHeap (f : Nat → Int) (hp : List Nat) (p : Nat)
    (h : IsHeap f hp) : IsHeap f (pushheapL f hp p) := by
  unfold pushheapL
  apply siftup_isHeap f p (hp.length + 1) (hp ++ [p]) (by omega) (by simp)
  · intro j hj2 hjlen hjne
    simp only [List.length_append, List.length_cons, List.length_nil] at hjlen
    have hj : j ≤ hp.length := by omega
    rw [hget_append _ _ _ (by omega) hj, hget_append _ _ _ (by omega) (by omega)]
    exact h j (by omega) hj2
  · intro hi2 j hjlen hjp
    simp only [List.length_append, List.length_cons, List.length_nil] at hjlen
    omega
  · intro j hjlen hjp
    simp only [List.length_append, List.length_cons, List.length_nil] at hjlen
    omega

theorem siftdown_length (f : Nat → Int) (last : Nat) : ∀ (n : Nat) (hp : List Nat)
    (parent : Nat), hp.length + 1 - parent = n →
    (siftdown f last hp parent).length = hp.length := by
  intro n
  induction n using Nat.strong_induction_on with
  | _ n ih =>
    intro hp parent hn
    rw [siftdown]
    simp only []
    split_ifs <;>
      try exact length_hset hp parent last
    all_goals
      first
        | (rw [ih (hp.length + 1 - (2 * parent + 1)) (by omega)
              (hset hp parent (hget hp (2 * parent + 1))) (2 * parent + 1)
              (by rw [length_hset]), length_hset])
        | (rw [ih (hp.length + 1 - (2 * parent)) (by omega)
              (hset hp parent (hget hp (2 * parent))) (2 * parent)
              (by rw [length_hset]), length_hset])

theorem siftdown_isHeap (f : Nat → Int) (last : Nat) : ∀ (n : Nat) (hp : List Nat)
    (parent : Nat), hp.length + 1 - parent = n → 1 ≤ parent →
    (∀ j, 2 ≤ j → j ≤ hp.length → j / 2 ≠ parent → f (hget hp (j / 2)) ≤ f (hget hp j)) →
    (2 ≤ parent → f (hget hp (parent / 2)) ≤ f last) →
    (2 ≤ parent → ∀ j, j ≤ hp.length → j / 2 = parent →
      f (hget hp (parent / 2)) ≤ f (hget hp j)) →
    IsHeap f (siftdown f last hp parent) := by
  intro n
  induction n using Nat.strong_induction_on with
  | _ n ih =>
    intro hp parent hn h1 hA hB hBC
    have hwrite : (∀ j, j ≤ hp.length → j / 2 = parent → f last ≤ f (hget hp j)) →
        IsHeap f (hset hp parent last) := by
      intro hdown j hjlen1 hj2
      rw [length_hset] at hjlen1
      have hjlen : j ≤ hp.length := by omega
      by_cases hjp : j = parent
      · subst hjp
        rw [hget_hset_ne hp j (j / 2) last h1 (by omega) (by omega),
          hget_hset_eq hp j last h1 hjlen]
        exact hB hj2
      · by_cases hj2p : j / 2 = parent
        · rw [hget_hset_ne hp parent j last h1 (by omega) (Ne.symm hjp), hj2p,
            hget_hset_eq hp parent last h1 (by omega)]
          exact hdown j hjlen hj2p
        · rw [hget_hset_ne hp parent j last h1 (by omega) (Ne.symm hjp),
            hget_hset_ne hp parent (j / 2) last h1 (by omega) (by omega)]
          exact hA j hj2 hjlen hj2p
    have hrec : ∀ child, (child = 2 * parent ∨ child = 2 * parent + 1) →
        2 * parent ≤ hp.length → child ≤ hp.length →
        (∀ o, o ≤ hp.length → o / 2 = parent → f (hget hp child) ≤ f (hget hp o)) →
        f (hget hp child) < f last →
        IsHeap f (siftdown f last (hset hp parent (hget hp child)) child) := by
      intro child hch hpar hchlen hmin hflt
      have hch2 : child / 2 = parent := by omega
      have hcp : parent < child := by omega
      apply ih (hp.length + 1 - child) (by omega) (hset hp parent (hget hp child)) child
        (by rw [length_hset]) (by omega)
      · intro j hj2 hjlen1 hjne
        rw [length_hset] at hjlen1
        by_cases hjp : j = parent
        · subst hjp
          rw [hget_hset_ne hp j (j / 2) (hget hp child) h1 (by omega) (by omega),
            hget_hset_eq hp j (hget hp child) h1 (by omega)]
          exact hBC hj2 child hchlen hch2
        · rw [hget_hset_ne hp parent j (hget hp child) h1 (by omega) (Ne.symm hjp)]
          by_cases hj2p : j / 2 = parent
          · rw [hj2p, hget_hset_eq hp parent (hget hp child) h1 (by omega)]
            exact hmin j (by omega) hj2p
          · rw [hget_hset_ne hp parent (j / 2) (hget hp child) h1 (by omega) (by omega)]
            exact hA j hj2 (by omega) hj2p
      · intro hc2
        rw [hch2, hget_hset_eq hp parent (hget hp child) h1 (by omega)]
        exact le_of_lt hflt
      · intro hc2 j hjlen1 hj2c
        rw [length_hset] at hjlen1
        rw [hch2, hget_hset_eq hp parent (hget hp child) h1 (by omega),
          hget_hset_ne hp parent j (hget hp child) h1 (by omega) (by omega)]
        have hAj := hA j (by omega) hjlen1 (by omega)
        rw [hj2c] at hAj
        exact hAj
    rw [siftdown]
    simp only []
    split_ifs with hcond hsel hstop1 hstop2
    · apply hwrite
      intro o holen ho2
      have hco : o = 2 * parent ∨ o = 2 * parent + 1 := by omega
      rcases hco with h | h <;> subst h
      · exact hstop1.trans (le_of_lt hsel.2)
      · exact hstop1
    · apply hrec (2 * parent + 1) (Or.inr rfl) hcond.2 (by omega)
      · intro o holen ho2
        have hco : o = 2 * parent ∨ o = 2 * parent + 1 := by omega
        rcases hco with h | h <;> subst h
        · exact le_of_lt hsel.2
        · exact le_refl _
      · exact lt_of_not_le hstop1
    · apply hwrite
      intro o holen ho2
      have hco : o = 2 * parent ∨ o = 2 * parent + 1 := by omega
      rcases hco with h | h <;> subst h
      · exact hstop2
      · have hge : f (hget hp (2 * parent)) ≤ f (hget hp (2 * parent + 1)) := by
          by_contra hlt
          exact hsel ⟨by omega, lt_of_not_le hlt⟩
        exact hstop2.trans hge
    · apply hrec (2 * parent) (Or.inl rfl) hcond.2 hcond.2
      · intro o holen ho2
        have hco : o = 2 * parent ∨ o = 2 * parent + 1 := by omega
        rcases hco with h | h <;> subst h
        · exact le_refl _
        · by_contra hlt
          exact hsel ⟨by omega, lt_of_not_le hlt⟩
      · exact lt_of_not_le hstop2
    · apply hwrite
      intro o holen ho2
      exfalso
      omega

theorem popheapL_isHeap (f : Nat → Int) (hp : List Nat) (h : IsHeap f hp) :
    IsHeap f (popheapL f hp).2 := by
  unfold popheapL
  apply siftdown_isHeap f (hget hp hp.length) (hp.dropLast.length + 1 - 1) hp.dropLast 1 rfl
    (le_refl 1)
  · intro j hj2 hjlen hjne
    rw [List.length_dropLast] at hjlen
    rw [hget_dropLast hp j (by omega) hjlen, hget_dropLast hp (j / 2) (by omega) (by omega)]
    exact h j (by omega) hj2
  · exact fun hcon => absurd hcon (by omega)
  · exact fun hcon => absurd hcon (by omega)

theorem isHeap_root_le (f : Nat → Int) (hp : List Nat) (h : IsHeap f hp) : ∀ (j : Nat),
    1 ≤ j → j ≤ hp.length → f (hget hp 1) ≤ f (hget hp j) := by
  intro j
  induction j using Nat.strong_induction_on with
  | _ j ih =>
    intro h1 hlen
    by_cases hj : j = 1
    · rw [hj]
    · have h2 : 2 ≤ j := by omega
      exact le_trans (ih (j / 2) (by omega) (by omega) (by omega)) (h j (by omega) h2)

/-- C5: the heap operations preserve the 1-indexed min-heap property on
`stride.minheap[1..size]` — both at the list level (`pushheapL`,
`popheapL`) and on the global state (`pushheap`, `popheap`); `popheapL`
returns the root, whose key is no larger than that of any element stored
in the heap, and the new heap is formed by refilling the root with the
last element and sifting it down, the sift descending toward the
smaller-pass child at each step. -/
theorem heap_ops_spec (f : Nat → Int) (hp : List Nat) (p : Nat) (s : PTable)
    (hheap : IsHeap f hp) (hs : IsHeap (passKey s) s.stride.minheap) :
    IsHeap f (pushheapL f hp p) ∧
    IsHeap f (popheapL f hp).2 ∧
    (popheapL f hp).1 = hget hp 1 ∧
    (∀ j, 1 ≤ j → j ≤ hp.length → f (popheapL f hp).1 ≤ f (hget hp j)) ∧
    (pushheapL f hp p).length = hp.length + 1 ∧
    (popheapL f hp).2.length = hp.length - 1 ∧
    IsHeap (passKey s) (pushheap s p).stride.minheap ∧
    IsHeap (passKey s) (popheap s).2.stride.minheap := by
  refine ⟨pushheapL_isHeap f hp p hheap, popheapL_isHeap f hp hheap, rfl, ?_, ?_, ?_, ?_, ?_⟩
  · exact fun j h1 h2 => isHeap_root_le f hp hheap j h1 h2
  · exact pushheapL_length f hp p
  · show (siftdown f (hget hp hp.length) hp.dropLast 1).length = hp.length - 1
    rw [siftdown_length f (hget hp hp.length) (hp.dropLast.length + 1 - 1) hp.dropLast 1 rfl,
      List.length_dropLast]
  · exact pushheapL_isHeap (passKey s) s.stride.minheap p hs
  · exact popheapL_isHeap (passKey s) s.stride.minheap hs

theorem heap_ops_spec_witness :
    IsHeap (fun j => (j : Int)) [1, 2, 3] ∧ IsHeap (passKey cs5) cs5.stride.minheap ∧
    IsHeap (fun j => (j : Int)) (pushheapL (fun j => (j : Int)) [1, 2, 3] 0) ∧
    IsHeap (passKey cs5) (popheap cs5).2.stride.minheap :=
  ⟨by decide, by decide,
   (heap_ops_spec (fun j => (j : Int)) [1, 2, 3] 0 cs5 (by decide) (by decide)).1,
   (heap_ops_spec (fun j => (j : Int)) [1, 2, 3] 0 cs5 (by decide) (by decide)).2.2.2.2.2.2.2⟩

/-! ## C3: the priority boost -/

theorem resetList_mlfq (s : PTable) (idxs : List Nat) :
    (resetList s idxs).mlfq = s.mlfq := by
  unfold resetList
  exact foldl_updProc_mlfq resetProc idxs s

theorem resetList_sleep (s : PTable) (idxs : List Nat) :
    (resetList s idxs).sleep = s.sleep := by
  unfold resetList
  exact foldl_updProc_sleep resetProc idxs s

theorem resetList_length (s : PTable) (idxs : List Nat) :
    (resetList s idxs).proc.length = s.proc.length := by
  unfold resetList
  exact foldl_updProc_length resetProc idxs s

theorem resetList_notMem (s : PTable) (idxs : List Nat) (j : Nat) (h : j ∉ idxs) :
    getProc (resetList s idxs) j = getProc s j := by
  unfold resetList
  exact foldl_updProc_notMem resetProc idxs s j h

theorem queueAt_resetList (s : PTable) (idxs : List Nat) (l : Nat) :
    queueAt (resetList s idxs) l = queueAt s l := by
  unfold queueAt
  rw [resetList_mlfq]

theorem resetList_reset (idxs : List Nat) : ∀ (s : PTable) (j : Nat), j < s.proc.length →
    (j ∈ idxs ∨ ((getProc s j).privlevel = 0 ∧ (getProc s j).ticks = 0)) →
    (getProc (resetList s idxs) j).privlevel = 0 ∧
      (getProc (resetList s idxs) j).ticks = 0 := by
  induction idxs with
  | nil =>
    intro s j _ h
    rcases h with h | h
    · exact absurd h (List.not_mem_nil j)
    · exact h
  | cons k ks ih =>
    intro s j hlen h
    have hstep : resetList s (k :: ks) = resetList (updProc s k resetProc) ks := rfl
    rw [hstep]
    apply ih (updProc s k resetProc) j (by simpa using hlen)
    rcases h with h | h
    · rcases List.mem_cons.mp h with heq | h2
      · right
        rw [heq] at hlen ⊢
        rw [getProc_updProc_eq s k resetProc hlen]
        exact ⟨rfl, rfl⟩
      · left
        exact h2
    · right
      by_cases hkj : k = j
      · subst hkj
        rw [getProc_updProc_eq s k resetProc hlen]
        exact ⟨rfl, rfl⟩
      · rw [getProc_updProc_ne s k j resetProc hkj]
        exact h

theorem getProc_concatqueue (s : PTable) (a b j : Nat) :
    getProc (concatqueue s a b) j = getProc s j := rfl

theorem concatqueue_sleep (s : PTable) (a b : Nat) :
    (concatqueue s a b).sleep = s.sleep := rfl

theorem concatqueue_proc_length (s : PTable) (a b : Nat) :
    (concatqueue s a b).proc.length = s.proc.length := rfl

theorem concatqueue_queue_length (s : PTable) (a b : Nat) :
    (concatqueue s a b).mlfq.queue.length = s.mlfq.queue.length := by
  simp [concatqueue]

theorem concatqueue_pin_length (s : PTable) (a b : Nat) :
    (concatqueue s a b).mlfq.pin.length = s.mlfq.pin.length := by
  simp [concatqueue]

theorem boostLevel_sleep (s : PTable) (l : Nat) : (boostLevel s l).sleep = s.sleep := by
  unfold boostLevel
  rw [concatqueue_sleep, resetList_sleep]

theorem boostLevel_proc_length (s : PTable) (l : Nat) :
    (boostLevel s l).proc.length = s.proc.length := by
  unfold boostLevel
  rw [concatqueue_proc_length, resetList_length]

theorem boostLevel_queue_length (s : PTable) (l : Nat) :
    (boostLevel s l).mlfq.queue.length = s.mlfq.queue.length := by
  unfold boostLevel
  rw [concatqueue_queue_length, resetList_mlfq]

theorem boostLevel_pin_length (s : PTable) (l : Nat) :
    (boostLevel s l).mlfq.pin.length = s.mlfq.pin.length := by
  unfold boostLevel
  rw [concatqueue_pin_length, resetList_mlfq]

theorem boostLevel_queues (s : PTable) (l : Nat) (h0 : l ≠ 0)
    (hlq : l < s.mlfq.queue.length) (hlp : l < s.mlfq.pin.length)
    (h0q : 0 < s.mlfq.queue.length) (h0p : 0 < s.mlfq.pin.length) :
    queueAt (boostLevel s l) l = [] ∧
    queueAt (boostLevel s l) 0 = queueAt s 0 ++ queueAt s l ∧
    (∀ m, m ≠ l → m ≠ 0 → queueAt (boostLevel s l) m = queueAt s m) := by
  have hparts := concatqueue_parts (resetList s (queueAt s l)) l 0 h0
    (by rw [resetList_mlfq]; exact hlq) (by rw [resetList_mlfq]; exact hlp)
    (by rw [resetList_mlfq]; exact h0q) (by rw [resetList_mlfq]; exact h0p)
  unfold boostLevel
  refine ⟨hparts.2.2.2.2.1, ?_, ?_⟩
  · rw [hparts.2.2.2.1, queueAt_resetList, queueAt_resetList]
  · intro m hm1 hm2
    rw [hparts.2.2.2.2.2 m hm1 hm2, queueAt_resetList]

theorem boostLevel_getProc_notMem (s : PTable) (l j : Nat) (h : j ∉ queueAt s l) :
    getProc (boostLevel s l) j = getProc s j := by
  unfold boostLevel
  rw [getProc_concatqueue]
  exact resetList_notMem s (queueAt s l) j h

theorem boostLevel_reset (s : PTable) (l j : Nat) (hlen : j < s.proc.length)
    (h : j ∈ queueAt s l ∨ ((getProc s j).privlevel = 0 ∧ (getProc s j).ticks = 0)) :
    (getProc (boostLevel s l) j).privlevel = 0 ∧ (getProc (boostLevel s l) j).ticks = 0 := by
  unfold boostLevel
  rw [getProc_concatqueue]
  exact resetList_reset (queueAt s l) s j hlen h

theorem boost_fold_sleep (L : List Nat) : ∀ s : PTable,
    (L.foldl boostLevel s).sleep = s.sleep := by
  induction L with
  | nil => intro s; rfl
  | cons l ls ih => intro s; rw [List.foldl_cons, ih, boostLevel_sleep]

theorem boost_fold_proc_length (L : List Nat) : ∀ s : PTable,
    (L.foldl boostLevel s).proc.length = s.proc.length := by
  induction L with
  | nil => intro s; rfl
  | cons l ls ih => intro s; rw [List.foldl_cons, ih, boostLevel_proc_length]

theorem foldl_append_congr (F G : Nat → List Nat) (L : List Nat)
    (h : ∀ m ∈ L, F m = G m) : ∀ a : List Nat,
    L.foldl (fun q m => q ++ F m) a = L.foldl (fun q m => q ++ G m) a := by
  induction L with
  | nil => intro a; rfl
  | cons l ls ih =>
    intro a
    rw [List.foldl_cons, List.foldl_cons, h l (List.mem_cons_self l ls),
      ih (fun m hm => h m (List.mem_cons_of_mem l hm))]

theorem boost_fold_spec (L : List Nat) : ∀ s : PTable,
    L.Nodup →
    (∀ l ∈ L, l ≠ 0 ∧ l < s.mlfq.queue.length ∧ l < s.mlfq.pin.length) →
    0 < s.mlfq.queue.length → 0 < s.mlfq.pin.length →
    (∀ l ∈ L, queueAt (L.foldl boostLevel s) l = []) ∧
    (∀ m, m ∉ L → m ≠ 0 → queueAt (L.foldl boostLevel s) m = queueAt s m) ∧
    queueAt (L.foldl boostLevel s) 0 =
      L.foldl (fun q l => q ++ queueAt s l) (queueAt s 0) ∧
    (∀ j, j < s.proc.length →
      ((∃ l ∈ L, j ∈ queueAt s l) ∨
        ((getProc s j).privlevel = 0 ∧ (getProc s j).ticks = 0)) →
      (getProc (L.foldl boostLevel s) j).privlevel = 0 ∧
        (getProc (L.foldl boostLevel s) j).ticks = 0) ∧
    (∀ j, (∀ l ∈ L, j ∉ queueAt s l) →
      getProc (L.foldl boostLevel s) j = getProc s j) := by
  induction L with
  | nil =>
    intro s _ _ _ _
    refine ⟨by simp, fun m _ _ => rfl, rfl, ?_, fun j _ => rfl⟩
    intro j _ h
    rcases h with ⟨l, hl, _⟩ | h
    · exact absurd hl (List.not_mem_nil l)
    · exact h
  | cons l ls ih =>
    intro s hnd hH h0q h0p
    obtain ⟨hln, hndl⟩ := List.nodup_cons.mp hnd
    obtain ⟨hl0, hlq, hlp⟩ := hH l (List.mem_cons_self l ls)
    have hBL := boostLevel_queues s l hl0 hlq hlp h0q h0p
    have hql := boostLevel_queue_length s l
    have hpl := boostLevel_pin_length s l
    have hH2 : ∀ m ∈ ls, m ≠ 0 ∧ m < (boostLevel s l).mlfq.queue.length ∧
        m < (boostLevel s l).mlfq.pin.length := by
      intro m hm
      obtain ⟨a, b, c⟩ := hH m (List.mem_cons_of_mem l hm)
      exact ⟨a, by rw [hql]; exact b, by rw [hpl]; exact c⟩
    have hq2 : ∀ m ∈ ls, queueAt (boostLevel s l) m = queueAt s m := by
      intro m hm
      have hml : m ≠ l := fun hc => hln (hc ▸ hm)
      exact hBL.2.2 m hml (hH m (List.mem_cons_of_mem l hm)).1
    have ihs := ih (boostLevel s l) hndl hH2 (by rw [hql]; exact h0q)
      (by rw [hpl]; exact h0p)
    simp only [List.foldl_cons]
    refine ⟨?_, ?_, ?_, ?_, ?_⟩
    · intro m hm
      rcases List.mem_cons.mp hm with heq | hm2
      · rw [heq, ihs.2.1 l hln hl0]
        exact hBL.1
      · exact ihs.1 m hm2
    · intro m hm hm0
      simp only [List.mem_cons, not_or] at hm
      rw [ihs.2.1 m hm.2 hm0, hBL.2.2 m hm.1 hm0]
    · rw [ihs.2.2.1, hBL.2.1]
      exact foldl_append_congr (queueAt (boostLevel s l)) (queueAt s) ls hq2
        (queueAt s 0 ++ queueAt s l)
    · intro j hjlen hj
      apply ihs.2.2.2.1 j (by rw [boostLevel_proc_length]; exact hjlen)
      rcases hj with ⟨m, hm, hjm⟩ | hj0
      · rcases List.mem_cons.mp hm with heq | hm2
        · right
          exact boostLevel_reset s l j hjlen (Or.inl (heq ▸ hjm))
        · left
          refine ⟨m, hm2, ?_⟩
          rw [hq2 m hm2]
          exact hjm
      · right
        exact boostLevel_reset s l j hjlen (Or.inr hj0)
    · intro j hj
      rw [ihs.2.2.2.2 j ?_, boostLevel_getProc_notMem s l j (hj l (List.mem_cons_self l ls))]
      intro m hm
      rw [hq2 m hm]
      exact hj m (List.mem_cons_of_mem l hm)

/-- C3 counterexample: on a boost tick (the incremented `mlfq.ticks`
is a multiple of `BOOSTINTERVAL`) a level-0 MLFQ process on the ready
set keeps its nonzero `ticks` — the boost loop starts at level 1 — so
not every MLFQ process on a ready-queue level ends with `ticks = 0`. -/
theorem boost_tick_cex :
    (mlfqTick cpr 0 c3s).mlfq.ticks % cpr.BOOSTINTERVAL = 0 ∧
    (getProc c3s 0).type = PType.MLFQ ∧
    0 ∈ queueAt (mlfqlogic cpr 0 c3s) 0 ∧
    (getProc (mlfqlogic cpr 0 c3s) 0).ticks ≠ 0 := by decide

/-- C3 (amended): the boost resets the upper ready levels and the sleep
list but not level 0.  After `boost pr s`, every process on a level
`1 ≤ l < QSIZE` queue or on the sleep list has `privlevel = 0` and
`ticks = 0`; every level `l ≥ 1` queue is spliced empty, level 0
becoming the old level 0 followed by the old upper queues in level
order; a process on no upper queue and not on the sleep list — in
particular a level-0 resident — is untouched, keeping its `ticks`; the
sleep list itself is unchanged; and `mlfqlogic` runs the boost exactly
when the incremented `mlfq.ticks` is a multiple of `BOOSTINTERVAL`. -/
theorem boost_reset_spec (pr : Params) (s : PTable) (hq1 : 1 ≤ pr.QSIZE)
    (hQ : pr.QSIZE ≤ s.mlfq.queue.length) (hP : pr.QSIZE ≤ s.mlfq.pin.length) :
    (∀ j, j < s.proc.length →
      ((∃ l, 1 ≤ l ∧ l < pr.QSIZE ∧ j ∈ queueAt s l) ∨ j ∈ s.sleep) →
      (getProc (boost pr s) j).privlevel = 0 ∧ (getProc (boost pr s) j).ticks = 0) ∧
    (∀ l, 1 ≤ l → l < pr.QSIZE → queueAt (boost pr s) l = []) ∧
    queueAt (boost pr s) 0 =
      (List.range' 1 (pr.QSIZE - 1)).foldl (fun q l => q ++ queueAt s l) (queueAt s 0) ∧
    (∀ j, (∀ l, 1 ≤ l → l < pr.QSIZE → j ∉ queueAt s l) → j ∉ s.sleep →
      getProc (boost pr s) j = getProc s j) ∧
    (boost pr s).sleep = s.sleep ∧
    (∀ i, (mlfqTick pr i s).mlfq.ticks % pr.BOOSTINTERVAL = 0 →
      mlfqlogic pr i s = boost pr (mlfqTick pr i s)) := by
  have hmemL : ∀ l, l ∈ List.range' 1 (pr.QSIZE - 1) ↔ 1 ≤ l ∧ l < pr.QSIZE := by
    intro l
    rw [List.mem_range'_1]
    omega
  have hnd : (List.range' 1 (pr.QSIZE - 1)).Nodup :=
    List.nodup_range' 1 (pr.QSIZE - 1) 1 Nat.one_pos
  have hH : ∀ l ∈ List.range' 1 (pr.QSIZE - 1),
      l ≠ 0 ∧ l < s.mlfq.queue.length ∧ l < s.mlfq.pin.length := by
    intro l hl
    have := (hmemL l).mp hl
    exact ⟨by omega, by omega, by omega⟩
  have hfold := boost_fold_spec (List.range' 1 (pr.QSIZE - 1)) s hnd hH (by omega) (by omega)
  have hs1sleep : ((List.range' 1 (pr.QSIZE - 1)).foldl boostLevel s).sleep = s.sleep :=
    boost_fold_sleep _ s
  have hs1len : ((List.range' 1 (pr.QSIZE - 1)).foldl boostLevel s).proc.length =
      s.proc.length := boost_fold_proc_length _ s
  have hboost : boost pr s = resetList ((List.range' 1 (pr.QSIZE - 1)).foldl boostLevel s)
      ((List.range' 1 (pr.QSIZE - 1)).foldl boostLevel s).sleep := rfl
  refine ⟨?_, ?_, ?_, ?_, ?_, ?_⟩
  · intro j hjlen hj
    rw [hboost]
    apply resetList_reset _ _ j (by rw [hs1len]; exact hjlen)
    rcases hj with hq | hsleep
    · right
      obtain ⟨l, h1, h2, hjm⟩ := hq
      exact hfold.2.2.2.1 j hjlen (Or.inl ⟨l, (hmemL l).mpr ⟨h1, h2⟩, hjm⟩)
    · left
      rw [hs1sleep]
      exact hsleep
  · intro l h1 h2
    rw [hboost, queueAt_resetList]
    exact hfold.1 l ((hmemL l).mpr ⟨h1, h2⟩)
  · rw [hboost, queueAt_resetList]
    exact hfold.2.2.1
  · intro j hjq hjs
    rw [hboost, resetList_notMem _ _ j (by rw [hs1sleep]; exact hjs)]
    apply hfold.2.2.2.2 j
    intro l hl
    have := (hmemL l).mp hl
    exact hjq l this.1 this.2
  · rw [hboost, resetList_sleep, hs1sleep]
  · intro i hi
    show (if (mlfqTick pr i s).mlfq.ticks % pr.BOOSTINTERVAL = 0
        then boost pr (mlfqTick pr i s) else mlfqTick pr i s) = boost pr (mlfqTick pr i s)
    rw [if_pos hi]

theorem boost_reset_spec_witness :
    ((getProc (boost cpr c3w) 1).privlevel = 0 ∧ (getProc (boost cpr c3w) 1).ticks = 0) ∧
    ((getProc (boost cpr c3w) 2).privlevel = 0 ∧ (getProc (boost cpr c3w) 2).ticks = 0) ∧
    queueAt (boost cpr c3w) 1 = [] ∧
    queueAt (boost cpr c3w) 0 = [0, 1] ∧
    getProc (boost cpr c3w) 0 = getProc c3w 0 := by
  have h := boost_reset_spec cpr c3w (by decide) (by decide) (by decide)
  refine ⟨h.1 1 (by decide) (Or.inl ⟨1, le_refl 1, by decide, by decide⟩),
    h.1 2 (by decide) (Or.inr (by decide)),
    h.2.1 1 (le_refl 1) (by decide),
    h.2.2.1.trans (by decide),
    h.2.2.2.1 0 ?_ (by decide)⟩
  intro l h1 h2
  have h2x : l < 2 := h2
  have hl1 : l = 1 := by omega
  rw [hl1]
  decide

/-! ## C10: sleeping stride processes and the heap -/

theorem siftup_mem (f : Nat → Int) (p : Nat) : ∀ (i : Nat), ∀ (hp : List Nat),
    1 ≤ i → i ≤ hp.length → p ∈ siftup f p hp i := by
  intro i
  induction i using Nat.strong_induction_on with
  | _ i ih =>
    intro hp h1 h2
    rw [siftup]
    split_ifs with hc
    · exact ih (i / 2) (by omega) (hset hp i (hget hp (i / 2))) (by omega)
        (by rw [length_hset]; omega)
    · unfold hset
      exact List.mem_set hp (i - 1) (by omega) p

theorem mem_pushheapL (f : Nat → Int) (hp : List Nat) (p : Nat) :
    p ∈ pushheapL f hp p := by
  unfold pushheapL
  exact siftup_mem f p (hp.length + 1) (hp ++ [p]) (by omega) (by simp)

theorem getProc_pushheap (s : PTable) (k j : Nat) :
    getProc (pushheap s k) j = getProc s j := rfl

theorem pushheap_sleep (s : PTable) (k : Nat) : (pushheap s k).sleep = s.sleep := rfl

theorem pushheap_minheap (s : PTable) (k : Nat) :
    (pushheap s k).stride.minheap = pushheapL (passKey s) s.stride.minheap k := rfl

theorem stridelogic_stride_push (pr : Params) (s : PTable) (i : Nat)
    (hty : (getProc s i).type = .STRIDE)
    (hst : (getProc s i).state = .RUNNABLE ∨ (getProc s i).state = .SLEEPING)
    (hnb : ¬ pr.BARRIER < minpassOf s (some i)) :
    stridelogic pr (some i) s =
      pushheap (updProc s i (fun p => { p with pass := p.pass + STRD pr p.tickets })) i := by
  unfold stridelogic
  simp only [if_neg hnb]
  rw [if_neg (by rw [hty]; exact fun hc => PType.noConfusion hc), if_pos hst]

theorem stridelogic_push_facts (pr : Params) (s : PTable) (i : Nat)
    (hlen : i < s.proc.length)
    (hty : (getProc s i).type = .STRIDE)
    (hst : (getProc s i).state = .RUNNABLE ∨ (getProc s i).state = .SLEEPING)
    (hnb : ¬ pr.BARRIER < minpassOf s (some i)) :
    (getProc (stridelogic pr (some i) s) i).pass
        = (getProc s i).pass + STRD pr (getProc s i).tickets ∧
    (getProc (stridelogic pr (some i) s) i).state = (getProc s i).state ∧
    (getProc (stridelogic pr (some i) s) i).tickets = (getProc s i).tickets ∧
    i ∈ (stridelogic pr (some i) s).stride.minheap ∧
    (stridelogic pr (some i) s).stride.minheap.length = s.stride.minheap.length + 1 ∧
    (stridelogic pr (some i) s).sleep = s.sleep := by
  rw [stridelogic_stride_push pr s i hty hst hnb]
  have hg : getProc (pushheap (updProc s i
        (fun p => { p with pass := p.pass + STRD pr p.tickets })) i) i
      = { getProc s i with pass := (getProc s i).pass + STRD pr (getProc s i).tickets } := by
    rw [getProc_pushheap, getProc_updProc_eq s i _ hlen]
  refine ⟨by rw [hg], by rw [hg], by rw [hg], ?_, ?_, ?_⟩
  · rw [pushheap_minheap]
    have : (updProc s i (fun p => { p with pass := p.pass + STRD pr p.tickets })).stride
        = s.stride := updProc_stride s i _
    rw [this]
    exact mem_pushheapL _ s.stride.minheap i
  · rw [pushheap_minheap]
    have : (updProc s i (fun p => { p with pass := p.pass + STRD pr p.tickets })).stride
        = s.stride := updProc_stride s i _
    rw [this, pushheapL_length]
  · rw [pushheap_sleep, updProc_sleep]

theorem sleepSched_sleep (s : PTable) (i c : Nat) :
    (sleepSched s i c).sleep = i :: s.sleep := by
  unfold sleepSched
  simp only []
  split_ifs <;> rfl

theorem sleepSched_proc_length (s : PTable) (i c : Nat) :
    (sleepSched s i c).proc.length = s.proc.length := by
  unfold sleepSched
  simp only []
  split_ifs <;> simp [dequeue]

theorem getProc_set_sleep (s : PTable) (L : List Nat) (j : Nat) :
    getProc { s with sleep := L } j = getProc s j := rfl

theorem getProc_set_stride (s : PTable) (st : StrideState) (j : Nat) :
    getProc { s with stride := st } j = getProc s j := rfl

theorem sleepSched_getProc (s : PTable) (i c : Nat) (hlen : i < s.proc.length)
    (hty : (getProc s i).type = .STRIDE) :
    getProc (sleepSched s i c) i = { getProc s i with chan := c, state := .SLEEPING } := by
  have hne : ¬ (getProc (updProc s i (fun p => { p with chan := c })) i).type = .MLFQ := by
    rw [getProc_updProc_eq s i _ hlen]
    show ¬ (getProc s i).type = .MLFQ
    rw [hty]
    exact fun hc => PType.noConfusion hc
  unfold sleepSched
  simp only []
  rw [if_neg hne]
  set s1 := updProc s i (fun p => { p with chan := c }) with hs1
  set s2 : PTable := { s1 with stride := { s1.stride with run := s1.stride.run.erase i } }
    with hs2
  have h2 : i < s2.proc.length := by
    rw [hs2]
    show i < s1.proc.length
    rw [hs1, updProc_length]
    exact hlen
  rw [getProc_set_sleep, getProc_updProc_eq s2 i _ h2, hs2, getProc_set_stride, hs1,
    getProc_updProc_eq s i _ hlen]

/-- C10: a departing stride process is pushed back onto the min-heap
with its pass advanced by `STRD(tickets)` whenever it is `RUNNABLE` or
`SLEEPING`; a `ZOMBIE` is dropped, the state unchanged; after `sleep`
followed by `stridelogic` the process sits simultaneously on the sleep
list and in the heap, still `SLEEPING`; and when the scheduler pops a
`SLEEPING` stride root it does not run it (`schedulerIdle` is the
not-run iteration), `stridelogic` re-pushing it with its pass advanced
again by `STRD(tickets)`.  (All parts are stated away from the
overflow rebase: `minpass ≤ BARRIER`.) -/
theorem stride_sleep_heap_spec (pr : Params) (s : PTable) (i : Nat)
    (hlen : i < s.proc.length)
    (hty : (getProc s i).type = .STRIDE) :
    ((getProc s i).state = .RUNNABLE ∨ (getProc s i).state = .SLEEPING →
      ¬ pr.BARRIER < minpassOf s (some i) →
      (getProc (stridelogic pr (some i) s) i).pass
          = (getProc s i).pass + STRD pr (getProc s i).tickets ∧
      (getProc (stridelogic pr (some i) s) i).state = (getProc s i).state ∧
      i ∈ (stridelogic pr (some i) s).stride.minheap ∧
      (stridelogic pr (some i) s).stride.minheap.length = s.stride.minheap.length + 1 ∧
      (stridelogic pr (some i) s).sleep = s.sleep) ∧
    ((getProc s i).state = .ZOMBIE → ¬ pr.BARRIER < minpassOf s (some i) →
      stridelogic pr (some i) s = s) ∧
    (∀ c : Nat, (getProc s i).state = .RUNNING →
      ¬ pr.BARRIER < minpassOf (sleepSched s i c) (some i) →
      i ∈ (stridelogic pr (some i) (sleepSched s i c)).sleep ∧
      i ∈ (stridelogic pr (some i) (sleepSched s i c)).stride.minheap ∧
      (getProc (stridelogic pr (some i) (sleepSched s i c)) i).state = PState.SLEEPING) ∧
    ((getProc s i).state = .SLEEPING →
      getminpass pr s < s.mlfq.pass →
      hget s.stride.minheap 1 = i →
      ¬ pr.BARRIER < minpassOf (popheap s).2 (some i) →
      i ∈ (schedulerIdle pr s).stride.minheap ∧
      (getProc (schedulerIdle pr s) i).pass
          = (getProc s i).pass + STRD pr (getProc s i).tickets ∧
      (getProc (schedulerIdle pr s) i).state = PState.SLEEPING) := by
  refine ⟨?_, ?_, ?_, ?_⟩
  · intro hst hnb
    obtain ⟨a, b, c, d, e, f⟩ := stridelogic_push_facts pr s i hlen hty hst hnb
    exact ⟨a, b, d, e, f⟩
  · intro hz hnb
    unfold stridelogic
    simp only [if_neg hnb]
    rw [if_neg (by rw [hty]; exact fun hc => PType.noConfusion hc),
      if_neg (by rw [hz]; rintro (hc | hc) <;> exact PState.noConfusion hc)]
  · intro c _ hnb
    have hg := sleepSched_getProc s i c hlen hty
    have hlen2 : i < (sleepSched s i c).proc.length := by
      rw [sleepSched_proc_length]
      exact hlen
    have hty2 : (getProc (sleepSched s i c) i).type = .STRIDE := by
      rw [hg]
      exact hty
    have hst2 : (getProc (sleepSched s i c) i).state = .RUNNABLE ∨
        (getProc (sleepSched s i c) i).state = .SLEEPING := by
      rw [hg]
      exact Or.inr rfl
    obtain ⟨a, b, cc, d, e, f⟩ :=
      stridelogic_push_facts pr (sleepSched s i c) i hlen2 hty2 hst2 hnb
    refine ⟨?_, d, ?_⟩
    · rw [f, sleepSched_sleep]
      exact List.mem_cons_self i s.sleep
    · rw [b, hg]
  · intro hsl hsel hroot hnb
    have hidle : schedulerIdle pr s = stridelogic pr (some i) (popheap s).2 := by
      show stridelogic pr (schedPick pr s).1 (schedPick pr s).2 = _
      have hpick : schedPick pr s = (some (popheap s).1, (popheap s).2) := by
        unfold schedPick
        rw [if_pos hsel]
      rw [hpick]
      show stridelogic pr (some (popheap s).1) (popheap s).2 = _
      have hr1 : (popheap s).1 = i := hroot
      rw [hr1]
    rw [hidle]
    obtain ⟨a, b, cc, d, e, f⟩ := stridelogic_push_facts pr (popheap s).2 i hlen hty
      (Or.inr hsl) hnb
    refine ⟨d, a, ?_⟩
    rw [b]
    exact hsl

theorem stride_sleep_heap_spec_witness :
    (getProc (stridelogic cpr (some 0) c10) 0).pass
        = (getProc c10 0).pass + STRD cpr (getProc c10 0).tickets ∧
    0 ∈ (stridelogic cpr (some 0) c10).stride.minheap ∧
    stridelogic cpr (some 0) c10z = c10z ∧
    0 ∈ (stridelogic cpr (some 0) (sleepSched c10r 0 3)).sleep ∧
    0 ∈ (stridelogic cpr (some 0) (sleepSched c10r 0 3)).stride.minheap ∧
    0 ∈ (schedulerIdle cpr c10).stride.minheap ∧
    (getProc (schedulerIdle cpr c10) 0).state = PState.SLEEPING := by
  have h := stride_sleep_heap_spec cpr c10 0 (by decide) (by decide)
  have hz := stride_sleep_heap_spec cpr c10z 0 (by decide) (by decide)
  have hr := stride_sleep_heap_spec cpr c10r 0 (by decide) (by decide)
  exact ⟨(h.1 (by decide) (by decide)).1, (h.1 (by decide) (by decide)).2.2.1,
    hz.2.1 (by decide) (by decide),
    (hr.2.2.1 3 (by decide) (by decide)).1,
    (hr.2.2.1 3 (by decide) (by decide)).2.1,
    (h.2.2.2 (by decide) (by decide) (by decide) (by decide)).1,
    (h.2.2.2 (by decide) (by decide) (by decide) (by decide)).2.2⟩

end XvSched